import Mathlib

/-!
Verification development for the AST-decoder core of the enterprise-rating
repository (`src/enterprise_rating/ast_decoder/`): tokenizer, variable-token
grammar, variable resolver, per-instruction parsers, multi-condition splitter,
renderer and control-flow linker.

Conventions of the shallow embedding:
* Python strings are modelled as `List Char` (abbreviated `Str`); `isspace`,
  `isdigit`, `strip`, `title`, `lower` are modelled over ASCII, which covers
  the instruction alphabet the decoder consumes.
* Python `int` is `Int`; `None`-able values are `Option`.
* Functions that can raise return `Except Str α`; the error string models
  `str(e)` of the raised exception.
* Instruction records (`dict`s produced by `Instruction.model_dump`) are the
  structure `RawIns`, with the field types of `entities/instruction.py`.
-/

namespace ER

abbrev Str : Type := List Char

/-- Python `str.isspace` over the ASCII whitespace characters: true iff the
string is nonempty and all characters are whitespace. -/
def pyIsSpace (s : Str) : Bool :=
  !s.isEmpty && s.all (fun c => c = ' ' || c = '\t' || c = '\n' || c = '\r' || c = '\x0b' || c = '\x0c')

/-- Python `str.isdigit` restricted to ASCII decimal digits: nonempty and all
characters are digits. -/
def pyIsDigit (s : Str) : Bool :=
  !s.isEmpty && s.all Char.isDigit

/-- Value of `int(s)` for a string of decimal digits. -/
def digitsToNat (s : Str) : Nat :=
  s.foldl (fun acc c => acc * 10 + (c.toNat - '0'.toNat)) 0

/-- One strip of Python `str.strip`: drop leading ASCII whitespace. -/
def dropLeadingSpace (s : Str) : Str :=
  s.dropWhile (fun c => c = ' ' || c = '\t' || c = '\n' || c = '\r' || c = '\x0b' || c = '\x0c')

/-- Python `str.strip()`: remove leading and trailing whitespace. -/
def pyStrip (s : Str) : Str :=
  (dropLeadingSpace (dropLeadingSpace s).reverse).reverse

/-- Python `str.lower()` (ASCII). -/
def pyLower (s : Str) : Str := s.map Char.toLower

/-- Python `sep.join(parts)`. -/
def joinSep (sep : Str) (parts : List Str) : Str :=
  match parts with
  | [] => []
  | p :: ps => p ++ (ps.map (fun q => sep ++ q)).flatten

/-- Python `s.split(sep)` for a one-character separator: splits on every
occurrence, keeping empty parts (so `"".split` is `[""]`). -/
def pySplitChar (sep : Char) : Str → List Str
  | [] => [[]]
  | c :: cs =>
    if c = sep then [] :: pySplitChar sep cs
    else
      match pySplitChar sep cs with
      | [] => [[c]]
      | p :: ps => (c :: p) :: ps

/-- Python `ch in s` for a single character. -/
def sContains (s : Str) (ch : Char) : Bool :=
  s.any (fun c => c == ch)

/-- Python `sub in s` for strings: substring (infix) test. -/
def containsSub (s pat : Str) : Bool :=
  match s with
  | [] => pat.isEmpty
  | _ :: cs => pat.isPrefixOf s || containsSub cs pat

/-- Python `s.replace(a, b)` for one-character `a` and `b`. -/
def replaceChar (a b : Char) (s : Str) : Str :=
  s.map (fun c => if c = a then b else c)

/-- Python `str.title()` (ASCII): a letter is uppercased when the previous
character is not a letter, lowercased otherwise. -/
def pyTitleGo (prevAlpha : Bool) : Str → Str
  | [] => []
  | c :: cs =>
    (if c.isAlpha then (if prevAlpha then c.toLower else c.toUpper) else c)
      :: pyTitleGo c.isAlpha cs

/-- Python `str.title()` from the start of the string. -/
def pyTitle (s : Str) : Str := pyTitleGo false s

/-- Decimal rendering of a Python `int` inside an f-string. -/
def intRepr (n : Int) : Str := (toString n).toList

/-! ## Tokenizer (`ast_decoder/tokenizer.py`) -/

/-- Token kinds of `tokenizer.Token.type`: operator/delimiter or word. -/
inductive TokKind where
  | OP
  | WORD
deriving DecidableEq, Repr

/-- Embeds `tokenizer.Token`: a (type, value) pair. -/
structure Token where
  kind : TokKind
  value : Str
deriving DecidableEq, Repr

/-- The fixed delimiter strings of the tokenizer regex and of its membership
set, in the order of the regex alternation. -/
def DELIMS : List Str :=
  [['|'], ['^'], ['+'], ['>', '='], ['<', '='], ['='], ['>'], ['<'],
   ['!', 'R', '2'], ['!', 'R', 'N'], ['!', 'R', 'S'], ['!'], ['~'],
   ['{'], ['}'], ['['], [']']]

/-- Splitting pass of `tokenize`: the regex `re.split` with the captured
delimiter alternation, realised as a left-to-right scan that tries the
alternatives of the pattern in order at each position (regex alternation is
first-match, so the multi-character markers win over their prefixes exactly as
in the pattern order). Returns the interleaved gap/delimiter parts. -/
def splitParts : Str → Str → List Str
  | [], acc => [acc.reverse]
  | '|' :: rest, acc => acc.reverse :: ['|'] :: splitParts rest []
  | '^' :: rest, acc => acc.reverse :: ['^'] :: splitParts rest []
  | '+' :: rest, acc => acc.reverse :: ['+'] :: splitParts rest []
  | '>' :: '=' :: rest, acc => acc.reverse :: ['>', '='] :: splitParts rest []
  | '<' :: '=' :: rest, acc => acc.reverse :: ['<', '='] :: splitParts rest []
  | '=' :: rest, acc => acc.reverse :: ['='] :: splitParts rest []
  | '>' :: rest, acc => acc.reverse :: ['>'] :: splitParts rest []
  | '<' :: rest, acc => acc.reverse :: ['<'] :: splitParts rest []
  | '!' :: 'R' :: '2' :: rest, acc => acc.reverse :: ['!', 'R', '2'] :: splitParts rest []
  | '!' :: 'R' :: 'N' :: rest, acc => acc.reverse :: ['!', 'R', 'N'] :: splitParts rest []
  | '!' :: 'R' :: 'S' :: rest, acc => acc.reverse :: ['!', 'R', 'S'] :: splitParts rest []
  | '!' :: rest, acc => acc.reverse :: ['!'] :: splitParts rest []
  | '~' :: rest, acc => acc.reverse :: ['~'] :: splitParts rest []
  | '{' :: rest, acc => acc.reverse :: ['{'] :: splitParts rest []
  | '}' :: rest, acc => acc.reverse :: ['}'] :: splitParts rest []
  | '[' :: rest, acc => acc.reverse :: ['['] :: splitParts rest []
  | ']' :: rest, acc => acc.reverse :: [']'] :: splitParts rest []
  | c :: rest, acc => splitParts rest (c :: acc)

/-- Classification step of `tokenize`: delimiter strings become OP tokens,
everything else a WORD token. -/
def classifyPart (p : Str) : Token :=
  if p ∈ DELIMS then ⟨TokKind.OP, p⟩ else ⟨TokKind.WORD, p⟩

/-- Embeds `tokenizer.tokenize`: empty input yields no tokens; otherwise split into
parts, drop empty and whitespace-only parts, and classify each remaining part
as an operator/delimiter or word token. -/
def tokenize (raw : Str) : List Token :=
  if raw.isEmpty then []
  else ((splitParts raw []).filter (fun p => !p.isEmpty && !pyIsSpace p)).map classifyPart


/-! ## Instruction-type table and variable grammar (`ast_decoder/defs.py`) -/

/-- The `InsType` enumeration of `defs.py` as a code/name table: every member
value paired with its member name.  Instruction types are represented by their
integer codes; `insTypeValid` and `insTypeName` recover Python's
`InsType(code)` validity and `.name`. -/
def insTypeTable : List (Int × Str) := [
(-1, "UNKNOWN"),
  (0, "ARITHMETIC"),
  (1, "IF"),
  (2, "CALL"),
  (3, "SORT"),
  (4, "MASK"),
  (5, "SET_STRING"),
  (6, "EMPTY"),
  (7, "FLAG_DRVS_ALL"),
  (8, "FLAG_DRVS_FROM_FLAG_DRVS"),
  (9, "ASSIGN_1ST_RANKED_VEH_TO_FLAG_DRV"),
  (10, "ASSIGN_VEH_USUALLY_DRIVEN_BY_FLAG_DRV"),
  (11, "ASSIGN_1ST_RANKED_VEH_TO_1ST_RANKED_DRV"),
  (12, "ASSIGN_VEH_USUALLY_DRIVEN_BY_UNASSIGNED_DRVS"),
  (13, "ISO_NOT_IMPLEMENTED"),
  (14, "RANK_ALL_DRIVERS_LOW_TO_HIGH"),
  (15, "RANK_FLAGGED_DRVS_LOW_TO_HIGH"),
  (16, "RANK_ALL_DRVS_TO_ALL_VEHS"),
  (17, "RANK_ALL_VEHS_LOW_TO_HIGH"),
  (18, "RANK_ASSIGNED_VEHS_LOW_TO_HIGH"),
  (19, "RANK_UNASSIGNED_VEHS_LOW_TO_HIGH"),
  (20, "FLAG_DRVS_ASSIGNED"),
  (21, "FLAG_DRVS_UNASSIGNED"),
  (22, "ASSIGN_FLAG_DRV_TO_ALL_UNASSIGNED_VEHS"),
  (23, "ASSIGN_FLAG_DRV_TO_FIRST_UNASSIGNED_VEH"),
  (24, "MODIFY_FLAG_DRVS"),
  (25, "MODIFY_ALL_DRVS"),
  (26, "ASSIGN_LAST_RANKED_VEH_TO_FLAGGED_DRV"),
  (27, "ASSIGN_LAST_RANKED_VEH_TO_LOW_RATED_DRV"),
  (28, "RECALCULATE_VEHICLE_USAGE"),
  (29, "FLAG_LAST_RANKED_DRV"),
  (30, "FLAG_1ST_RANKED_DRV"),
  (31, "ASSIGN_VEH_USUALLY_DRIVEN_BY_RANKED_DRV_HIGH_TO_LOW"),
  (32, "ASSIGN_VEH_USUALLY_DRIVEN_BY_RANKED_DRV_LOW_TO_HIGH"),
  (33, "ASSIGN_VEHS_BY_DRV_USAGE_USING_1ST_RANKED_VEH"),
  (34, "ASSIGN_VEHS_BY_DRV_USAGE_USING_LAST_RANKED_VEH"),
  (35, "ASSIGN_VEHS_BY_HIGHEST_PREMIUM_COMBINATION_EX"),
  (36, "ASSIGN_VEHS_BY_LOWEST_PREMIUM_COMBINATION_EX"),
  (37, "ASSIGN_VEHS_BY_HIGHEST_PREMIUM_COMBINATION_NON_EX"),
  (38, "ASSIGN_VEHS_BY_LOWEST_PREMIUM_COMBINATION_NON_EX"),
  (39, "RANK_ALL_DRVS_TO_ALL_UNASSIGNED_VEHS"),
  (40, "ASSIGN_VEHS_USING_DA_OVERRIDE_INPUTS"),
  (41, "ASSIGN_VEHS_TO_HIGHEST_PREMIUM_DRV"),
  (42, "ASSIGN_VEHS_TO_LOWEST_PREMIUM_DRV"),
  (43, "RANK_ALL_DRVS_HIGH_TO_LOW"),
  (44, "RANK_FLAGGED_DRVS_HIGH_TO_LOW"),
  (47, "RANK_ALL_VEHS_HIGH_TO_LOW"),
  (48, "RANK_ASSIGNED_VEHS_HIGH_TO_LOW"),
  (49, "RANK_UNASSIGNED_VEHS_HIGH_TO_LOW"),
  (50, "IF_ALL_ALL"),
  (51, "IF_NO_ALL"),
  (52, "IF_ANY_ALL"),
  (53, "IF_ALL_USE_CURRENT_PATH"),
  (54, "IF_NO_USE_CURRENT_PATH"),
  (55, "IF_ANY_USE_CURRENT_PATH"),
  (56, "IF_DATE"),
  (57, "DATE_DIFF_DAYS"),
  (58, "DATE_DIFF_MONTHS"),
  (59, "DATE_DIFF_YEARS"),
  (60, "SUM_ACROSS_CATEGORY_ALL_AVAILABLE"),
  (61, "PRODUCT_ACROSS_CATEGORY_ALL_AVAILABLE"),
  (62, "FLAG_1ST_RANKED_VEH"),
  (63, "FLAG_LAST_RANKED_VEH"),
  (64, "FLAG_ALL_VEHS"),
  (65, "FLAG_ASSIGNED_VEHS"),
  (66, "FLAG_UNASSIGNED_VEHS"),
  (67, "FLAG_VEH_FROM_FLAGGED_VEH"),
  (68, "MODIFY_FLAGGED_VEH_INPUTS"),
  (69, "MODIFY_ALL_VEH_INPUTS"),
  (70, "CLEAR_VEH_RANKING"),
  (71, "CLEAR_DRV_RANKING"),
  (80, "SET_PRINCIPAL_OPERATOR_VARIABLE"),
  (81, "ASSIGN_UNASSIGNED_VEHS_BY_PRINC_OP_EXCLUSIVE"),
  (82, "ASSIGN_ALL_VEHS_BY_PRINC_OP_NONEXCLUSIVE"),
  (83, "ASSIGN_UNASSIGNED_VEHS_BY_PRINC_OP_NONEXCLUSIVE"),
  (84, "ABSOLUTE_VALUE"),
  (85, "STRING_LENGTH"),
  (86, "STRING_ADDITION"),
  (87, "SUM_ACROSS_CATEGORY_USE_CURRENT_PATH"),
  (88, "PRODUCT_ACROSS_CATEGORY_USE_CURRENT_PATH"),
  (89, "COUNT_ACROSS_CATEGORY_ALL_AVAILABLE"),
  (90, "COUNT_ACROSS_CATEGORY_USE_CURRENT_PATH"),
  (93, "RANK_ACROSS_CATEGORY_ALL_AVAILABLE"),
  (94, "RANK_ACROSS_CATEGORY"),
  (95, "IS_DATE"),
  (97, "CLEAR_RANKING"),
  (98, "IS_NUMERIC"),
  (99, "IS_ALPHA"),
  (100, "ASSIGN_VEH_USUALLY_DRIVEN_ALL_BY_FLAG_DRV"),
  (101, "ASSIGN_VEH_USUALLY_DRIVEN_ALL_BY_RANKED_DRV_HIGH_TO_LOW"),
  (102, "ASSIGN_VEH_USUALLY_DRIVEN_ALL_BY_RANKED_DRV_LOW_TO_HIGH"),
  (106, "ASSIGN_VEH_USUALLY_DRIVEN_ALL_BY_RANKED_DRV_ALL_HIGH_TO_LOW"),
  (107, "ASSIGN_VEH_USUALLY_DRIVEN_ALL_BY_RANKED_DRV_ALL_LOW_TO_HIGH"),
  (108, "ASSIGN_1ST_RANKED_VEH_TO_1ST_RANKED_DRV_WITH_EXCLUSION"),
  (110, "RANK_ALL_DRIVERS_VS_ALL_VEHICLES_SEQ"),
  (111, "ASSIGN_1ST_RANKED_VEH_TO_1ST_RANKED_DRV_SEQ"),
  (112, "ASSIGN_1ST_RANKED_VEH_TO_1ST_RANKED_DRV_SEQ_WITH_EXCLUSION"),
  (113, "FLAG_DRVS_ALL_USAGE_SET"),
  (114, "RANK_ALL_DRVS_LOW_TO_HIGH_USAGE_SET"),
  (115, "RANK_ALL_DRIVERS_HIGH_TO_LOW_USAGE_SET"),
  (116, "ASSIGN_1ST_RANKED_VEH_TO_1ST_RANKED_DRV_USAGE_SET"),
  (117, "CLEAR_DRV_RANKING_USAGE_SET"),
  (118, "RANK_ALL_DRVS_LOW_TO_HIGH_USAGE_SET_CONDITIONAL"),
  (119, "RANK_ALL_DRIVERS_HIGH_TO_LOW_USAGE_SET_CONDITIONAL"),
  (120, "GET_CATEGORY_ITEM_USE_CURRENT_PATH"),
  (121, "SET_CATEGORY_ITEM_USE_CURRENT_PATH"),
  (122, "GET_RANKED_CATEGORY_ITEM"),
  (123, "SET_RANKED_CATEGORY_ITEM"),
  (124, "GET_CATEGORY_ITEM_ALL_AVAILABLE"),
  (125, "SET_CATEGORY_ITEM_ALL_AVAILABLE"),
  (126, "DATE_ADDITION"),
  (127, "POWER"),
  (128, "LOG"),
  (129, "LOG10"),
  (130, "EXP"),
  (131, "RAND"),
  (132, "FACT"),
  (133, "SQRT"),
  (134, "CEILING"),
  (135, "FLOOR"),
  (136, "EVEN"),
  (137, "ODD"),
  (138, "COS"),
  (139, "COSH"),
  (140, "ACOS"),
  (141, "ACOSH"),
  (142, "SIN"),
  (143, "SINH"),
  (144, "ASIN"),
  (145, "ASINH"),
  (146, "TAN"),
  (147, "TANH"),
  (148, "ATAN"),
  (149, "ATANH"),
  (150, "DEGREES"),
  (151, "RADIANS"),
  (193, "RANK_ACROSS_CATEGORY_ALL_AVAILABLE_ALT"),
  (194, "RANK_ACROSS_CATEGORY_ALT"),
  (200, "DATA_SOURCE"),
  (254, "SET_UNDERWRITING_TO_FAIL")
].map (fun p => (p.1, p.2.toList))

/-- Whether `InsType(code)` succeeds (the code is a member value). -/
def insTypeValid (code : Int) : Bool :=
  (insTypeTable.map Prod.fst).contains code

/-- Computes `InsType(code).name` for a valid code (irrelevant default for others). -/
def insTypeName (code : Int) : Str :=
  ((insTypeTable.find? (fun p => p.1 = code)).map Prod.snd).getD []

/-- Embeds `defs.MULTI_IF_SYMBOL`. -/
def MULTI_IF_SYMBOL : Char := '#'

/-- Error data of the `ValueError`s raised by `split_var_token`; each variant
carries the offending (marker-stripped) token, as the f-string messages do. -/
inductive VarErr where
  | cannotParse (tok : Str)
  | badNumericIds (tok : Str)
  | badNumericId (tok : Str)
deriving DecidableEq, Repr

/-- The marker strip of `split_var_token`: remove one leading `~` or `D`. -/
def stripTok (token : Str) : Str :=
  if ['~'].isPrefixOf token || ['D'].isPrefixOf token then token.drop 1 else token

/-- Embeds `defs.split_var_token`: strip one leading `~` or `D`; require an
underscore and length at least 3; the first two characters are the category
prefix, the text from position 3 on is the numeric id, optionally followed by
`.` and a numeric sub-id. -/
def split_var_token (token : Str) : Except VarErr (Str × Nat × Option Nat) :=
  let token := stripTok token
  if !sContains token '_' || token.length < 3 then
    .error (.cannotParse token)
  else
    let pfx := token.take 2
    let rest := token.drop 3
    if sContains rest '.' then
      let mainIdStr := rest.takeWhile (fun c => c != '.')
      let subIdStr := (rest.dropWhile (fun c => c != '.')).drop 1
      if !pyIsDigit mainIdStr || !pyIsDigit subIdStr then
        .error (.badNumericIds token)
      else
        .ok (pfx, digitsToNat mainIdStr, some (digitsToNat subIdStr))
    else
      if !pyIsDigit rest then
        .error (.badNumericId token)
      else
        .ok (pfx, digitsToNat rest, none)

/-! ## Entities and the variable resolver (`helpers/var_lookup.py`) -/

/-- One entry of a `dependency_vars` list (`entities/dependency.py`,
`DependencyBase`): the fields `get_var_desc` reads.  `index` and `custom_id`
are `int`-typed in the entity. -/
structure Dep where
  index : Int
  custom_id : Option Int
  description : Str
deriving DecidableEq, Repr

/-- A parent entity (an `Algorithm` or `DependencyBase`) as seen by
`get_var_desc`: its `dependency_vars` attribute, whose entity default is
`None`. -/
structure Ctx where
  dependency_vars : Option (List Dep)
deriving DecidableEq, Repr

/-- One entry of the program-wide input dictionary (`key`/`description`), per
the `var_lookup` docstring and spec section 4.3. -/
structure InputVar where
  key : Str
  description : Str
deriving DecidableEq, Repr

/-- The `data_dictionary` object with its `inputs` list. -/
structure DataDict where
  inputs : List InputVar
deriving DecidableEq, Repr

/-- Modelled from the spec: the program-version lookup context.  The
`ProgramVersion` entity in `src` does not declare a `data_dictionary`
attribute; the attribute is modelled from the `var_lookup.get_var_desc`
docstring and spec section 4.3 (a program-wide input dictionary keyed by a
stable key). -/
structure PV where
  data_dictionary : DataDict
deriving DecidableEq, Repr

/-- An instruction record dict (`Instruction.model_dump()`), with the field
types of `entities/instruction.py`. -/
structure RawIns where
  n : Int
  t : Option Int
  ins : Str
  ins_tar : Option Str
  seq_t : Option Int
  seq_f : Option Int
deriving DecidableEq, Repr

/-- Values that flow into a parser's `step` parameter: `parse` passes the
integer step, while `decoder.decode_ins` passes the whole instruction dict
positionally into the `step` slot of the token/step/type-signature parsers. -/
inductive StepArg where
  | num (n : Int)
  | dict (r : RawIns)
deriving DecidableEq, Repr

/-- Values that flow into a parser's `ins_type` parameter: an `InsType`
member (by code, `none` for Python `None`) from `parse`, or the
`algorithm_seq` argument that `decoder.decode_ins` passes positionally into
the `ins_type` slot. -/
inductive TyArg where
  | ty (t : Option Int)
  | ctxv (c : Option Ctx)
deriving DecidableEq, Repr

/-- Values that flow into the `algorithm_or_dependency` parameter (and into
the `parent_entity` of `get_var_desc`): an algorithm/dependency entity, or
the program version that `decoder.decode_ins` passes positionally into that
slot. -/
inductive CtxArg where
  | dep (c : Option Ctx)
  | pv (p : Option PV)
deriving DecidableEq, Repr

/-- Python `==` between an `int` attribute and a `str` key: cross-type
equality, always `False`. -/
def intEqStr (_i : Int) (_s : Str) : Bool := false

/-- Text of `str(e)` for the `AttributeError` raised by `None.data_dictionary`. -/
def noneDataDictErr : Str :=
  "'NoneType' object has no attribute 'data_dictionary'".toList

/-- Text of `str(e)` for the `TypeError` raised by iterating a `None`
`dependency_vars`. -/
def noneIterErr : Str := "'NoneType' object is not iterable".toList

/-- Embeds `getattr(parent_entity, 'dependency_vars', [])` followed by iteration:
`None` parents and program-version objects lack the attribute (default `[]`);
an entity whose `dependency_vars` is `None` raises on iteration. -/
def depVarsOf (parent : CtxArg) : Except Str (List Dep) :=
  match parent with
  | .dep (some c) =>
    match c.dependency_vars with
    | some l => .ok l
    | none => .error noneIterErr
  | .dep none => .ok []
  | .pv _ => .ok []

/-- Embeds `helpers/var_lookup.get_var_desc`: scan the parent entity dependency
list for an entry whose `index` or `custom_id` equals the key (an
`int`-vs-`str` comparison, hence never a match); otherwise scan
`program_version.data_dictionary.inputs`; otherwise return the key.  A `None`
`program_version` raises `AttributeError` at the `data_dictionary` access. -/
def get_var_desc (var_key : Str) (parent : CtxArg) (pv : Option PV) : Except Str Str := do
  let deps ← depVarsOf parent
  match deps.find? (fun d =>
      intEqStr d.index var_key
        || (match d.custom_id with | some ci => intEqStr ci var_key | none => false)) with
  | some d => .ok d.description
  | none =>
    match pv with
    | none => .error noneDataDictErr
    | some p =>
      match p.data_dictionary.inputs.find? (fun i => i.key == var_key) with
      | some i => .ok i.description
      | none => .ok var_key

/-- Modelled from the spec: `get_target_var_desc`, imported by `parser.py`
from `helpers/var_lookup` but absent from `src`.  The final resolution step
of spec section 4.3 returns the token text unchanged when nothing matches,
so the model returns the target name unchanged. -/
def get_target_var_desc (target : Str) (_parent : Option Ctx) : Str := target

/-! ## Syntax-tree nodes (`ast_decoder/ast_nodes.py`)

The node model follows the dataclasses of `ast_nodes.py`, extended with the
fields that every decoder call site passes and that the spec data model
declares for every variant (the optional render-template id, the optional
`step_type`, the rounding specification of function nodes): `ast_nodes.py` in
`src` lags its call sites, which construct nodes with these keyword
arguments.  The `JumpNode`, `TypeCheckNode` and `MultiConditionNode` classes
are imported by `parser.py`/`renderer.py` but absent from `src`; they are
modelled from the spec node model (section 3) with the fields their call
sites pass.  `english` is `none` when the attribute was never assigned, and
`some s` when it holds the string `s`; a dataclass field whose default is
Python `None` is modelled as `some []`, which the renderer treats identically
(both are falsy). -/

inductive Node where
  | raw (step : StepArg) (ins_type : TyArg) (template_id : Option Str)
      (step_type : Option Int) (raw : Str) (value : Str) (english : Option Str)
  | compare (step : StepArg) (ins_type : TyArg) (template_id : Option Str)
      (left : Node) (operator : Str) (right : Node) (english : Option Str)
  | ifN (step : StepArg) (ins_type : TyArg) (template_id : Option Str)
      (step_type : Option Int) (condition : Node)
      (true_branch false_branch : List Node) (english : Option Str)
  | arith (step : StepArg) (ins_type : TyArg) (template_id : Option Str)
      (left : Node) (operator : Str) (right : Node)
      (round_spec : Option Str) (round_english : Option Str) (english : Option Str)
  | func (step : StepArg) (ins_type : TyArg) (template_id : Option Str)
      (name : Str) (args : List Node) (round_spec : Option Str) (english : Option Str)
  | assign (step : StepArg) (ins_type : TyArg) (template_id : Option Str)
      (var : Str) (expr : Node) (target : Option Str)
      (next_true next_false : Option (List Node)) (english : Option Str)
  | jump (step : StepArg) (ins_type : TyArg) (template_id : Option Str)
      (step_type : Option Int) (target : Int) (english : Option Str)
  | typeCheck (step : StepArg) (ins_type : TyArg) (template_id : Option Str)
      (step_type : Option Int) (left : Node) (check_type : Str) (english : Option Str)
  | multiCond (step : StepArg) (ins_type : TyArg) (template_id : Option Str)
      (conditions : List Node) (joiner : Str) (english : Option Str)
  | backRef (target : Int)

namespace Node

/-- The step field of a node (`none` only for the linker's back-reference
marker, which carries no step). -/
def stepOf : Node → Option StepArg
  | raw s _ _ _ _ _ _ => some s
  | compare s _ _ _ _ _ _ => some s
  | ifN s _ _ _ _ _ _ _ => some s
  | arith s _ _ _ _ _ _ _ _ => some s
  | func s _ _ _ _ _ _ => some s
  | assign s _ _ _ _ _ _ _ _ => some s
  | jump s _ _ _ _ _ => some s
  | typeCheck s _ _ _ _ _ _ => some s
  | multiCond s _ _ _ _ _ => some s
  | backRef _ => none

/-- The template-id attribute. -/
def templateIdOf : Node → Option Str
  | raw _ _ tid _ _ _ _ => tid
  | compare _ _ tid _ _ _ _ => tid
  | ifN _ _ tid _ _ _ _ _ => tid
  | arith _ _ tid _ _ _ _ _ _ => tid
  | func _ _ tid _ _ _ _ => tid
  | assign _ _ tid _ _ _ _ _ _ => tid
  | jump _ _ tid _ _ _ => tid
  | typeCheck _ _ tid _ _ _ _ => tid
  | multiCond _ _ tid _ _ _ => tid
  | backRef _ => none

/-- The english attribute. -/
def englishOf : Node → Option Str
  | raw _ _ _ _ _ _ e => e
  | compare _ _ _ _ _ _ e => e
  | ifN _ _ _ _ _ _ _ e => e
  | arith _ _ _ _ _ _ _ _ e => e
  | func _ _ _ _ _ _ e => e
  | assign _ _ _ _ _ _ _ _ e => e
  | jump _ _ _ _ _ e => e
  | typeCheck _ _ _ _ _ _ e => e
  | multiCond _ _ _ _ _ e => e
  | backRef _ => none

/-- Assignment to the english attribute. -/
def setEnglish : Node → Option Str → Node
  | raw s t tid st r v _, e => raw s t tid st r v e
  | compare s t tid l op ri _, e => compare s t tid l op ri e
  | ifN s t tid st c tb fb _, e => ifN s t tid st c tb fb e
  | arith s t tid l op ri rs re _, e => arith s t tid l op ri rs re e
  | func s t tid nm ar rs _, e => func s t tid nm ar rs e
  | assign s t tid v ex tg nt nf _, e => assign s t tid v ex tg nt nf e
  | jump s t tid st tg _, e => jump s t tid st tg e
  | typeCheck s t tid st l ck _, e => typeCheck s t tid st l ck e
  | multiCond s t tid cs j _, e => multiCond s t tid cs j e
  | backRef tg, _ => backRef tg

/-- The Python class name, for `AttributeError` messages. -/
def classNameOf : Node → Str
  | raw _ _ _ _ _ _ _ => "RawNode".toList
  | compare _ _ _ _ _ _ _ => "CompareNode".toList
  | ifN _ _ _ _ _ _ _ _ => "IfNode".toList
  | arith _ _ _ _ _ _ _ _ _ => "ArithmeticNode".toList
  | func _ _ _ _ _ _ _ => "FunctionNode".toList
  | assign _ _ _ _ _ _ _ _ _ => "AssignmentNode".toList
  | jump _ _ _ _ _ _ => "JumpNode".toList
  | typeCheck _ _ _ _ _ _ _ => "TypeCheckNode".toList
  | multiCond _ _ _ _ _ _ => "MultiConditionNode".toList
  | backRef _ => "BackRefNode".toList

end Node

/-- The text of an `AttributeError` on a missing attribute. -/
def attrErr (cls attr : Str) : Str :=
  ['\''] ++ cls ++ "' object has no attribute '".toList ++ attr ++ ['\'']

/-- Reading `.raw`: succeeds only on a leaf (`RawNode`), the only class with
a `raw` attribute. -/
def rawAttr : Node → Except Str Str
  | .raw _ _ _ _ r _ _ => .ok r
  | n => .error (attrErr n.classNameOf "raw".toList)

/-- Reading `.args`: succeeds only on a `FunctionNode`, the only class with
an `args` attribute. -/
def argsAttr : Node → Except Str (List Node)
  | .func _ _ _ _ args _ _ => .ok args
  | n => .error (attrErr n.classNameOf "args".toList)

/-! ## Renderer (`ast_decoder/renderer.py`)

`templates.yml` is not in `src`, so the compiled `TEMPLATES` table is a
parameter of the embedding: a partial map from template ids to template
functions over the exact slot sets `render_node` passes. -/

/-- The slot sets that `render_node` passes to `Template.render`. -/
inductive TplCtx where
  | jumpCtx (target : Int)
  | condCtx (left operator right cond_op : Str)
  | multiCtx (conditions : List Node) (joiner : Str)
  | arithCtx (left operator right round_spec : Str)
  | funcCtx (name args round_spec : Str)

/-- A compiled Jinja template: a function from its render context to text. -/
abbrev Tpl : Type := TplCtx → Str

/-- The `TEMPLATES` dict: template id to compiled template. -/
abbrev TplMap : Type := Str → Option Tpl

/-- The `try`-body of `render_node` once a template was found: builds the
render context for the node class and renders; attribute errors (reading
`.raw` off a non-leaf, reading `.args` off an `expr` that is not a
`FunctionNode`) are the exceptions the surrounding handler catches. -/
def renderTry (tpl : Tpl) (node : Node) : Except Str Str :=
  match node with
  | .jump _ _ _ _ target _ => .ok (pyStrip (tpl (.jumpCtx target)))
  | .ifN _ _ _ _ cond _ _ _ =>
    match cond with
    | .compare _ _ _ l op r _ => do
      let lr ← rawAttr l
      let rr ← rawAttr r
      .ok (tpl (.condCtx lr op rr []))
    | .multiCond _ _ _ conds joiner _ => .ok (tpl (.multiCtx conds joiner))
    | _ => .ok ((node.englishOf).getD [])
  | .arith _ _ _ l op r rs _ _ => do
    let lr ← rawAttr l
    let rr ← rawAttr r
    .ok (tpl (.arithCtx lr op rr (rs.getD [])))
  | .func _ _ _ name args rs _ => do
    let vals ← args.mapM rawAttr
    .ok (tpl (.funcCtx name (joinSep ", ".toList vals) (rs.getD [])))
  | .assign _ _ _ _ expr _ _ _ _ => do
    let argNodes ← argsAttr expr
    let vals ← argNodes.mapM rawAttr
    .ok (tpl (.funcCtx "Arithmetic".toList (joinSep ", ".toList vals) []))
  | n => .ok ((n.englishOf).getD [])

/-- The no-template fallback of `render_node`:
`getattr(node, "english", f"No Template found: {node.template_id}") or
"What?"`. -/
def fallbackText (node : Node) : Str :=
  match node.englishOf with
  | none =>
    "No Template found: ".toList
      ++ (match node.templateIdOf with | none => "None".toList | some t => t)
  | some [] => "What?".toList
  | some s => s

/-- Embeds `renderer.render_node`: look up the node template id; on a miss fall
back to the pre-computed english or the no-template marker; otherwise render,
and on an internal exception store the exception text in the node `english`
attribute and return it.  The returned pair is (text, node after the call),
making the `except`-branch mutation explicit. -/
def render_node (tpls : TplMap) (node : Node) : Str × Node :=
  match (node.templateIdOf).bind tpls with
  | none => (fallbackText node, node)
  | some tpl =>
    match renderTry tpl node with
    | .ok s => (s, node)
    | .error e => (e, node.setEnglish (some e))

/-! ## Per-category parsers (`ast_decoder/parser.py`)

Every parser takes the template table first (the renderer module global) and
returns `Except Str (List Node)`, the error being the text of an uncaught
exception.  Parameter types mirror what actually flows in at the two call
sites (`parser.parse` and `decoder.decode_ins`, the latter passing
positionally misaligned arguments; see `StepArg`, `TyArg`, `CtxArg`). -/

/-- Embeds `InsType(int(raw_ins.get("t", 0)))` with no `try`: a missing key falls
back to code 0, an invalid code raises `ValueError`. -/
def insTypeGet0 (t : Option Int) : Except Str Int :=
  match t with
  | none => .ok 0
  | some v =>
    if insTypeValid v then .ok v
    else .error (intRepr v ++ " is not a valid InsType".toList)

/-- Computes `ins_type.name` for whatever object sits in the `ins_type` slot: the
enum member name, or an `AttributeError` for the `None`/entity objects that
`decode_ins` passes there. -/
def tyArgName (ta : TyArg) : Except Str Str :=
  match ta with
  | .ty (some c) => .ok (insTypeName c)
  | .ty none => .error (attrErr "NoneType".toList "name".toList)
  | .ctxv none => .error (attrErr "NoneType".toList "name".toList)
  | .ctxv (some _) => .error (attrErr "Algorithm".toList "name".toList)

/-- Tests `x is None` for the `algorithm_or_dependency` slot. -/
def ctxArgIsNone : CtxArg → Bool
  | .dep none => true
  | .pv none => true
  | _ => false

/-- The trailing rounding-marker detachment shared by `parse_arithmetic` and
`parse_function`: if the final token starts with `!`, it is removed and its
text minus the leading `!` becomes the rounding specification. -/
def stripRound (tokens : List Token) : List Token × Option Str :=
  match tokens.getLast? with
  | some t =>
    if ['!'].isPrefixOf t.value then (tokens.dropLast, some (t.value.drop 1))
    else (tokens, none)
  | none => (tokens, none)

/-- Embeds `parser.parse_rank_flag`. -/
def parse_rank_flag (_tpls : TplMap) (tokens : List Token) (step : StepArg)
    (ins_type : TyArg) (aod : CtxArg) (pv : Option PV) (tid : Str) :
    Except Str (List Node) := do
  let nm ← tyArgName ins_type
  let action0 := pyTitle (replaceChar '_' ' ' nm)
  let varsExpanded ← tokens.mapM (fun t =>
    if !pv.isNone && !ctxArgIsNone aod && t.kind = TokKind.WORD
        && (containsSub t.value "GI_".toList || containsSub t.value "GC_".toList)
    then get_var_desc t.value aod pv
    else .ok t.value)
  let action :=
    if varsExpanded.isEmpty then action0
    else action0 ++ ": ".toList ++ joinSep ", ".toList varsExpanded
  let desc ← get_var_desc action aod pv
  .ok [.raw step ins_type (some tid) none action desc none]

/-- Embeds `parser.parse_sort`. -/
def parse_sort (_tpls : TplMap) (tokens : List Token) (step : StepArg)
    (ins_type : TyArg) (_aod : CtxArg) (_pv : Option PV) (tid : Str) :
    Except Str (List Node) :=
  .ok [.raw step ins_type (some tid) none []
        ("Sort: ".toList ++ joinSep [' '] (tokens.map (fun t => t.value))) none]

/-- Embeds `parser.parse_mask`. -/
def parse_mask (_tpls : TplMap) (tokens : List Token) (step : StepArg)
    (ins_type : TyArg) (_aod : CtxArg) (_pv : Option PV) (tid : Str) :
    Except Str (List Node) :=
  .ok [.raw step ins_type (some tid) none []
        ("Mask: ".toList ++ joinSep [' '] (tokens.map (fun t => t.value))) none]

/-- Embeds `parser.parse_empty`. -/
def parse_empty (_tpls : TplMap) (_tokens : List Token) (_step : StepArg)
    (_ins_type : TyArg) (_aod : CtxArg) (_pv : Option PV) (_tid : Str) :
    Except Str (List Node) :=
  .ok []

/-- Embeds `parser.parse_set_string`. -/
def parse_set_string (tpls : TplMap) (tokens : List Token) (step : StepArg)
    (ins_type : TyArg) (_aod : CtxArg) (_pv : Option PV) (tid : Str) :
    Except Str (List Node) :=
  match tokens with
  | t0 :: t1 :: _ =>
    let expr := Node.raw step ins_type (some tid) none [] t1.value none
    let assign0 := Node.assign step ins_type (some tid) t0.value expr none none none none
    let e := (render_node tpls assign0).1
    .ok [assign0.setEnglish (some e)]
  | _ =>
    .ok [.raw step ins_type (some tid) none []
          (joinSep [' '] (tokens.map (fun t => t.value))) none]

/-- Text of `str(e)` for the `ValueError` raised by `InsType(v)` on a non-member. -/
def notValidInsTypeErr (v : Int) : Str :=
  intRepr v ++ " is not a valid InsType".toList

/-- Embeds `parser.parse_string_addition`. -/
def parse_string_addition (_tpls : TplMap) (tokens : List Token)
    (raw_ins : RawIns) (parent : Option Ctx) (aod : CtxArg) (pv : Option PV)
    (tid : Str) : Except Str (List Node) := do
  let step := raw_ins.n
  let tc ← match raw_ins.t with
    | none => .error "'t'".toList
    | some v => if insTypeValid v then pure v else .error (notValidInsTypeErr v)
  let args ← tokens.mapM (fun t => do
    let d ← get_var_desc t.value aod pv
    pure (Node.raw (.num step) (.ty (some tc)) none none t.value d none))
  let concat := Node.func (.num step) (.ty (some tc)) none "StringAddition".toList args none (some [])
  let targetRaw := raw_ins.ins_tar.getD []
  let targetVal ← get_var_desc targetRaw aod pv
  let targetVal :=
    if targetRaw = targetVal then get_target_var_desc targetRaw parent else targetVal
  .ok [.assign (.num step) (.ty (some tc)) (some tid) targetRaw concat (some targetVal)
        none none none]

/-- Embeds `parser.parse_date_diff`: note the unconditional
`get_var_desc(value, None, None)` calls of lines 299-300. -/
def parse_date_diff (tpls : TplMap) (tokens : List Token) (step : StepArg)
    (ins_type : TyArg) (_aod : CtxArg) (_pv : Option PV) (tid : Str) :
    Except Str (List Node) := do
  let leftVal :=
    match tokens with
    | t0 :: _ => t0.value
    | [] => []
  let rightVal :=
    match tokens with
    | _ :: t1 :: _ => t1.value
    | _ => []
  let leftDesc ← get_var_desc leftVal (.dep none) none
  let rightDesc ← get_var_desc rightVal (.dep none) none
  let leftNode := Node.raw step ins_type none none leftVal leftDesc none
  let rightNode := Node.raw step ins_type none none rightVal rightDesc none
  let funcNode := Node.func step ins_type (some tid) "DateDifference".toList
    [leftNode, rightNode] none (some [])
  let e := (render_node tpls funcNode).1
  .ok [funcNode.setEnglish (some e)]

/-- Embeds `parser.parse_date_addition`. -/
def parse_date_addition (tpls : TplMap) (tokens : List Token) (step : StepArg)
    (ins_type : TyArg) (_aod : CtxArg) (_pv : Option PV) (tid : Str) :
    Except Str (List Node) :=
  let dateVal :=
    match tokens with
    | t0 :: _ => t0.value
    | [] => []
  let offsetVal :=
    match tokens with
    | _ :: t1 :: _ => t1.value
    | _ => []
  let dateNode := Node.raw step ins_type (some tid) none dateVal dateVal none
  let offsetNode := Node.raw step ins_type (some tid) none offsetVal offsetVal none
  let funcNode := Node.func step ins_type (some tid) "DateAddition".toList
    [dateNode, offsetNode] none (some [])
  let e := (render_node tpls funcNode).1
  .ok [funcNode.setEnglish (some e)]

/-- Embeds `parser.parse_if`: splits the raw instruction string on pipes, builds a
comparison condition, and wires single-element Jump placeholders from
`seq_t`/`seq_f` whenever the field is present (no positivity check). -/
def parse_if (tpls : TplMap) (_tokens : List Token) (raw_ins : RawIns)
    (c : Option Ctx) (p : Option PV) (tid : Str) : Except Str (List Node) := do
  let step := raw_ins.n
  let tc ← insTypeGet0 raw_ins.t
  let insStr := raw_ins.ins
  let parts := pySplitChar '|' insStr
  let (l, op, r) :=
    match parts with
    | _ :: p1 :: p2 :: p3 :: _ => (p1, p2, p3)
    | [p0, p1, p2] => (p0, p1, p2)
    | _ => (insStr, ([] : Str), ([] : Str))
  let dl ← get_var_desc l (.dep c) p
  let leftNode := Node.raw (.num step) (.ty (some tc)) (some tid) none l dl none
  let dr ← get_var_desc r (.dep c) p
  let rightNode := Node.raw (.num step) (.ty (some tc)) (some tid) none r dr none
  let condition := Node.compare (.num step) (.ty (some tc)) none leftNode op rightNode (some [])
  let tb :=
    match raw_ins.seq_t with
    | some v =>
      let j := Node.jump (.num step) (.ty (some tc)) (some "JUMP".toList) none v none
      [j.setEnglish (some (render_node tpls j).1)]
    | none => []
  let fb :=
    match raw_ins.seq_f with
    | some v =>
      let j := Node.jump (.num step) (.ty (some tc)) (some "JUMP".toList) none v none
      [j.setEnglish (some (render_node tpls j).1)]
    | none => []
  .ok [.ifN (.num step) (.ty (some tc)) (some tid) none condition tb fb none]

/-- Embeds `parser.parse_if_date`: the comparison is built from the first three
tokens; the source looks up the left value description for both sides (line
372 reuses `left_val`). -/
def parse_if_date (tpls : TplMap) (tokens : List Token) (raw_ins : RawIns)
    (c : Option Ctx) (p : Option PV) (tid : Str) : Except Str (List Node) := do
  let step := raw_ins.n
  let tc ← insTypeGet0 raw_ins.t
  let leftVal := ((tokens.get? 0).map (fun t => t.value)).getD []
  let opVal := ((tokens.get? 1).map (fun t => t.value)).getD []
  let rightVal := ((tokens.get? 2).map (fun t => t.value)).getD []
  let leftDesc ← get_var_desc leftVal (.dep c) p
  let leftNode := Node.raw (.num step) (.ty (some tc)) (some tid) none leftVal leftDesc none
  let rightDesc ← get_var_desc leftVal (.dep c) p
  let rightNode := Node.raw (.num step) (.ty (some tc)) (some tid) none rightVal rightDesc none
  let condition0 := Node.compare (.num step) (.ty (some tc)) (some tid) leftNode opVal rightNode (some [])
  let condition := condition0.setEnglish (some (render_node tpls condition0).1)
  let node0 := Node.ifN (.num step) (.ty (some tc)) (some tid) none condition [] [] none
  let nodeEnglish := (render_node tpls node0).1
  let tb :=
    match raw_ins.seq_t with
    | some v =>
      let j := Node.jump (.num step) (.ty (some tc)) (some "JUMP".toList) none v none
      [j.setEnglish (some (render_node tpls j).1)]
    | none => []
  let fb :=
    match raw_ins.seq_f with
    | some v =>
      let j := Node.jump (.num step) (.ty (some tc)) (some "JUMP".toList) none v none
      [j.setEnglish (some (render_node tpls j).1)]
    | none => []
  .ok [.ifN (.num step) (.ty (some tc)) (some tid) none condition tb fb (some nodeEnglish)]

/-- Embeds `parser.parse_arithmetic`: detach a trailing rounding marker, then
require at least three remaining tokens for left/operator/right; fewer fall
back to a single leaf whose value is the space-joined remaining tokens. -/
def parse_arithmetic (tpls : TplMap) (tokens : List Token) (step : StepArg)
    (ins_type : TyArg) (aod : CtxArg) (pv : Option PV) (tid : Str) :
    Except Str (List Node) := do
  let (ts, rs) := stripRound tokens
  match ts with
  | t0 :: t1 :: t2 :: _ =>
    let ld ← get_var_desc t0.value aod pv
    let leftNode := Node.raw step ins_type (some tid) none t0.value ld none
    let rd ← get_var_desc t2.value aod pv
    let rightNode := Node.raw step ins_type (some tid) none t2.value rd none
    let node0 := Node.arith step ins_type (some tid) leftNode t1.value rightNode rs none none
    let e := (render_node tpls node0).1
    .ok [node0.setEnglish (some e)]
  | _ =>
    .ok [.raw step ins_type (some tid) none []
          (joinSep [' '] (ts.map (fun t => t.value))) none]

/-- The `friendly_map` of `parse_function`. -/
def friendlyMap : List (Str × Str) :=
  [("POWER", "Power"), ("LOG", "Natural Log"), ("LOG10", "Log Base 10"),
   ("EXP", "Exponential"), ("SQRT", "Square Root"), ("COS", "Cosine"),
   ("SIN", "Sine"), ("TAN", "Tangent"), ("COSH", "Hyperbolic Cosine"),
   ("SINH", "Hyperbolic Sine"), ("TANH", "Hyperbolic Tangent")
  ].map (fun q => (q.1.toList, q.2.toList))

/-- Embeds `parser.parse_function`: detach a trailing rounding marker, collect the
remaining tokens as argument leaves, pick a friendly display name. -/
def parse_function (tpls : TplMap) (tokens : List Token) (step : StepArg)
    (ins_type : TyArg) (_aod : CtxArg) (_pv : Option PV) (tid : Str) :
    Except Str (List Node) := do
  let (ts, rs) := stripRound tokens
  let args := ts.map (fun t => Node.raw step ins_type (some tid) none t.value t.value none)
  let nm ← tyArgName ins_type
  let display := ((friendlyMap.find? (fun q => q.1 = nm)).map Prod.snd).getD (pyTitle nm)
  let node0 := Node.func step ins_type (some tid) display args rs (some [])
  let e := (render_node tpls node0).1
  .ok [node0.setEnglish (some e)]

/-- Embeds `parser.parse_call`. -/
def parse_call (_tpls : TplMap) (_tokens : List Token) (raw_ins : RawIns)
    (_c : Option Ctx) (_p : Option PV) (tid : Str) : Except Str (List Node) := do
  let step := raw_ins.n
  let tc ← insTypeGet0 raw_ins.t
  let callText := "Call: ".toList ++ raw_ins.ins
  .ok [.raw (.num step) (.ty (some tc)) (some tid) none callText callText none]

/-- Embeds `parser.parse_data_source`. -/
def parse_data_source (tpls : TplMap) (tokens : List Token) (raw_ins : RawIns)
    (_c : Option Ctx) (_p : Option PV) (tid : Str) : Except Str (List Node) := do
  let step := raw_ins.n
  let tc ← insTypeGet0 raw_ins.t
  let node0 := Node.func (.num step) (.ty (some tc)) none "DataSource".toList
    (tokens.map (fun tok =>
      Node.raw (.num step) (.ty (some tc)) (some tid) none tok.value tok.value none))
    none (some [])
  let e := (render_node tpls node0).1
  .ok [node0.setEnglish (some e)]

/-- Embeds `parser.parse_type_check`: single operand leaf, a check kind from the
type code, and Jump placeholders built only from present, positive
`seq_t`/`seq_f` values. -/
def parse_type_check (_tpls : TplMap) (tokens : List Token) (raw_ins : RawIns)
    (c : Option Ctx) (p : Option PV) (tid : Str) : Except Str (List Node) := do
  let step := raw_ins.n
  let tc ← insTypeGet0 raw_ins.t
  let leftRaw :=
    match tokens with
    | t0 :: t1 :: _ => if ['~'].isPrefixOf t0.value then t1.value else t0.value
    | [t0] => t0.value
    | [] => []
  let leftDesc ← get_var_desc leftRaw (.dep c) p
  let leftNode := Node.raw (.num step) (.ty (some tc)) (some tid) (some tc) leftRaw leftDesc none
  let checkType : Str :=
    if tc = 95 then "date".toList
    else if tc = 98 then "numeric".toList
    else if tc = 99 then "alpha".toList
    else pyLower (insTypeName tc)
  let condNode := Node.typeCheck (.num step) (.ty (some tc)) (some tid) (some tc) leftNode checkType none
  let tb :=
    match raw_ins.seq_t with
    | some v =>
      if v > 0 then
        [Node.jump (.num step) (.ty (some tc)) (some "JUMP".toList) (some tc) v none]
      else []
    | none => []
  let fb :=
    match raw_ins.seq_f with
    | some v =>
      if v > 0 then
        [Node.jump (.num step) (.ty (some tc)) (some "JUMP".toList) (some tc) v none]
      else []
    | none => []
  .ok [.ifN (.num step) (.ty (some tc)) (some "TYPE_CHECK".toList) (some tc) condNode tb fb none]

/-! ## Multi-condition splitting and the decode entry points
(`ast_decoder/decode_mif.py`, `ast_decoder/decoder.py`, `parser.parse`)

`parse`, `decode_ins` and `decode_mif` are mutually recursive (multi-condition
fragments are re-decoded through `decode_ins`, and unclassified fragments fall
back to `parse`, which may re-enter `decode_mif`).  Termination is by a
measure on the instruction text: every fragment `decode_mif` hands back is
strictly shorter, or marker-free so that `parse` cannot re-enter
`decode_mif`. -/

/-- The fragment scan of `decode_mif`: cut the body at each `^` or `+`
(earliest first); a delimiter at the very end produces no trailing empty
fragment, mirroring the `while i < length` loop. -/
def fragGo : Str → Str → List Str
  | [], acc => [acc.reverse]
  | c :: rest, acc =>
    if c = '^' || c = '+' then
      acc.reverse :: (if rest.isEmpty then [] else fragGo rest [])
    else fragGo rest (c :: acc)

/-- Fragment list of a multi-condition body (an empty body yields no
fragments: the loop is never entered). -/
def fragSplit (s : Str) : List Str :=
  if s.isEmpty then [] else fragGo s []

/-- One when the text contains any of the three split markers that send
`parse` into `decode_mif`, else 0. -/
def markerBit (s : Str) : Nat :=
  if sContains s '#' || sContains s '^' || sContains s '+' then 1 else 0

theorem sContains_iff {s : Str} {ch : Char} : sContains s ch = true ↔ ch ∈ s := by
  simp [sContains, List.any_eq_true, beq_iff_eq]

theorem markerBit_le_one (s : Str) : markerBit s ≤ 1 := by
  unfold markerBit
  split <;> omega

theorem pyStrip_length_le (s : Str) : (pyStrip s).length ≤ s.length := by
  unfold pyStrip dropLeadingSpace
  rw [List.length_reverse]
  calc (List.dropWhile _ (List.dropWhile _ s).reverse).length
      ≤ ((List.dropWhile _ s).reverse).length :=
        (List.dropWhile_sublist _).length_le
    _ = (List.dropWhile _ s).length := by rw [List.length_reverse]
    _ ≤ s.length := (List.dropWhile_sublist _).length_le

theorem pyStrip_mem {s : Str} {ch : Char} (h : ch ∈ pyStrip s) : ch ∈ s := by
  unfold pyStrip dropLeadingSpace at h
  rw [List.mem_reverse] at h
  have h1 := (List.dropWhile_sublist _).mem h
  rw [List.mem_reverse] at h1
  exact (List.dropWhile_sublist _).mem h1

theorem takeWhile_ne_length_lt {s : Str} {ch : Char} (h : ch ∈ s) :
    (s.takeWhile (fun c => c != ch)).length < s.length := by
  induction s with
  | nil => cases h
  | cons c cs ih =>
    by_cases hc : c = ch
    · subst hc
      simp [List.takeWhile]
    · rw [List.mem_cons] at h
      rcases h with h | h
      · exact absurd h.symm hc
      · have := ih h
        have hb : (c != ch) = true := bne_iff_ne.mpr hc
        simp only [List.takeWhile_cons, hb, if_true, List.length_cons]
        omega

theorem dropWhile_ne_drop_length_lt {s : Str} {ch : Char} (h : ch ∈ s) :
    ((s.dropWhile (fun c => c != ch)).drop 1).length < s.length := by
  induction s with
  | nil => cases h
  | cons c cs ih =>
    by_cases hc : c = ch
    · subst hc
      simp [List.dropWhile]
    · rw [List.mem_cons] at h
      rcases h with h | h
      · exact absurd h.symm hc
      · have := ih h
        have hb : (c != ch) = true := bne_iff_ne.mpr hc
        simp only [List.dropWhile_cons, hb, if_true, List.length_cons]
        omega

theorem fragGo_length {s acc f : Str} (h : f ∈ fragGo s acc) :
    f.length ≤ s.length + acc.length := by
  induction s generalizing acc with
  | nil =>
    simp [fragGo] at h
    subst h
    simp
  | cons c rest ih =>
    rw [fragGo] at h
    split at h
    · rcases List.mem_cons.mp h with h | h
      · subst h
        simp
      · split at h
        · cases h
        · have := ih h
          simp at this ⊢
          omega
    · have := ih h
      simp at this ⊢
      omega

theorem fragGo_mem_chars {s acc f : Str} (h : f ∈ fragGo s acc) :
    ∀ ch ∈ f, ch ∈ s ∨ ch ∈ acc := by
  induction s generalizing acc with
  | nil =>
    simp [fragGo] at h
    subst h
    intro ch hch
    right
    exact List.mem_reverse.mp hch
  | cons c rest ih =>
    rw [fragGo] at h
    split at h
    · rcases List.mem_cons.mp h with h | h
      · subst h
        intro ch hch
        right
        exact List.mem_reverse.mp hch
      · split at h
        · cases h
        · intro ch hch
          rcases ih h ch hch with h1 | h1
          · exact Or.inl (List.mem_cons_of_mem _ h1)
          · cases h1
    · intro ch hch
      rcases ih h ch hch with h1 | h1
      · exact Or.inl (List.mem_cons_of_mem _ h1)
      · rcases List.mem_cons.mp h1 with h2 | h2
        · subst h2
          exact Or.inl (List.mem_cons_self _ _)
        · exact Or.inr h2

theorem fragGo_no_delim {s acc f : Str} (h : f ∈ fragGo s acc)
    (hacc : '^' ∉ acc ∧ '+' ∉ acc) : '^' ∉ f ∧ '+' ∉ f := by
  induction s generalizing acc with
  | nil =>
    simp [fragGo] at h
    subst h
    simpa [List.mem_reverse] using hacc
  | cons c rest ih =>
    rw [fragGo] at h
    split at h
    · rcases List.mem_cons.mp h with h | h
      · subst h
        simpa [List.mem_reverse] using hacc
      · split at h
        · cases h
        · exact ih h (by simp)
    · rename_i hdelim
      rw [Bool.or_eq_true, not_or] at hdelim
      simp only [decide_eq_true_eq] at hdelim
      refine ih h ?_
      constructor
      · intro hmem
        rcases List.mem_cons.mp hmem with h2 | h2
        · exact absurd h2.symm hdelim.1
        · exact hacc.1 h2
      · intro hmem
        rcases List.mem_cons.mp hmem with h2 | h2
        · exact absurd h2.symm hdelim.2
        · exact hacc.2 h2

theorem fragSplit_length {s f : Str} (h : f ∈ fragSplit s) : f.length ≤ s.length := by
  unfold fragSplit at h
  split at h
  · cases h
  · simpa using fragGo_length h

theorem fragSplit_chars {s f : Str} (h : f ∈ fragSplit s) : ∀ ch ∈ f, ch ∈ s := by
  unfold fragSplit at h
  split at h
  · cases h
  · intro ch hch
    rcases fragGo_mem_chars h ch hch with h1 | h1
    · exact h1
    · cases h1

theorem fragSplit_no_delim {s f : Str} (h : f ∈ fragSplit s) : '^' ∉ f ∧ '+' ∉ f := by
  unfold fragSplit at h
  split at h
  · cases h
  · exact fragGo_no_delim h (by simp)

/-- A marker-free string has marker bit 0. -/
theorem markerBit_eq_zero {s : Str} (h1 : '#' ∉ s) (h2 : '^' ∉ s) (h3 : '+' ∉ s) :
    markerBit s = 0 := by
  unfold markerBit
  rw [if_neg]
  simp only [Bool.or_eq_true, not_or]
  refine ⟨⟨?_, ?_⟩, ?_⟩ <;> intro hc
  · exact h1 (sContains_iff.mp hc)
  · exact h2 (sContains_iff.mp hc)
  · exact h3 (sContains_iff.mp hc)

/-- The `dispatch_map` of `parser.parse` as a template-id table: `some` for
the handled `InsType` codes, `none` for the unclassified fallback. -/
def dispatchTemplate (tc : Int) : Option Str :=
  if tc = 0 then some "ASSIGNMENT".toList
  else if tc = 1 then some "IF_COMPARE".toList
  else if tc = 56 then some "IF_COMPARE".toList
  else if tc = 2 then some "FUNCTION_CALL".toList
  else if tc = 3 then some "FUNCTION_CALL".toList
  else if tc = 4 then some "MASK".toList
  else if tc = 5 then some "ASSIGNMENT".toList
  else if tc = 6 then some "EMPTY".toList
  else if tc = 86 then some "STRING_CONCAT".toList
  else if tc = 57 || tc = 58 || tc = 59 then some "DATE_DIFF".toList
  else if tc = 126 then some "DATE_DIFF".toList
  else if tc = 127 || tc = 128 || tc = 129 || tc = 130 || tc = 133
      || tc = 138 || tc = 142 || tc = 146 || tc = 139 || tc = 143 || tc = 147 then
    some "FUNCTION_CALL".toList
  else if tc = 200 then some "QUERY_DATA_SOURCE".toList
  else if tc = 94 then some "RANK_FLAG".toList
  else if tc = 193 then some "RANK_ACROSS_CATEGORY_ALL_AVAILABLE_ALT".toList
  else if tc = 194 then some "RANK_ACROSS_CATEGORY_ALT".toList
  else if tc = 254 then some "SET_UNDERWRITING_TO_FAIL".toList
  else if tc = 95 then some "IS_DATE".toList
  else if tc = 98 then some "IS_NUMERIC".toList
  else if tc = 99 then some "IS_ALPHA".toList
  else none

/-- Text of `str(e)` for the `TypeError` raised when `parse` calls the five-parameter
`parse_call` with six positional arguments (line 118 of `parser.py`). -/
def parseCallArityErr : Str :=
  "parse_call() takes from 2 to 5 positional arguments but 6 were given".toList

mutual

/-- Embeds `decode_mif.decode_mif`: split off the text before a `#` as a base
clause, split the remainder at each `^`/`+`, re-decode every piece through
`decode_ins`, and turn any exception from a piece into an error leaf whose
value carries the failure text (the base leaf keeps the template id, the
fragment leaves do not, as in the source). -/
def decode_mif (tpls : TplMap) (raw_ins : RawIns) (aod : Option Ctx)
    (pv : Option PV) (tid : Str) : List Node :=
  if hHash : sContains raw_ins.ins '#' then
    let basePart := raw_ins.ins.takeWhile (fun c => c != '#')
    let multiBody := (raw_ins.ins.dropWhile (fun c => c != '#')).drop 1
    let trimmedBase := pyStrip basePart
    let baseNodes :=
      if trimmedBase.isEmpty then []
      else
        match decode_ins tpls { raw_ins with ins := trimmedBase } aod pv with
        | .ok ns => ns
        | .error e =>
          [Node.raw (.num raw_ins.n) (.ty raw_ins.t) (some tid) none []
            ("ERROR: ".toList ++ e) none]
    let fragNodes := ((fragSplit multiBody).attach.map (fun fr =>
        match decode_ins tpls { raw_ins with ins := pyStrip fr.1 } aod pv with
        | .ok ns => ns
        | .error e =>
          [Node.raw (.num raw_ins.n) (.ty raw_ins.t) none none []
            ("ERROR: ".toList ++ e) none])).flatten
    baseNodes ++ fragNodes
  else
    ((fragSplit raw_ins.ins).attach.map (fun fr =>
        match decode_ins tpls { raw_ins with ins := pyStrip fr.1 } aod pv with
        | .ok ns => ns
        | .error e =>
          [Node.raw (.num raw_ins.n) (.ty raw_ins.t) none none []
            ("ERROR: ".toList ++ e) none])).flatten
termination_by 8 * raw_ins.ins.length + 2
decreasing_by
  · have hmem : '#' ∈ raw_ins.ins := sContains_iff.mp hHash
    have h1 := takeWhile_ne_length_lt hmem
    have h2 := pyStrip_length_le (raw_ins.ins.takeWhile (fun c => c != '#'))
    have h3 := markerBit_le_one (pyStrip (raw_ins.ins.takeWhile (fun c => c != '#')))
    omega
  · have hmem : '#' ∈ raw_ins.ins := sContains_iff.mp hHash
    have h1 := dropWhile_ne_drop_length_lt hmem
    have h2 : (fr.1).length ≤ ((raw_ins.ins.dropWhile (fun c => c != '#')).drop 1).length :=
      fragSplit_length fr.2
    have h3 := pyStrip_length_le fr.1
    have h4 := markerBit_le_one (pyStrip fr.1)
    omega
  · have hnh : '#' ∉ raw_ins.ins := fun hm => hHash (sContains_iff.mpr hm)
    have h2 := fragSplit_length fr.2
    have hnd := fragSplit_no_delim fr.2
    have h3 := pyStrip_length_le fr.1
    have hm0 : markerBit (pyStrip fr.1) = 0 := by
      apply markerBit_eq_zero
      · intro hm
        exact hnh (fragSplit_chars fr.2 _ (pyStrip_mem hm))
      · intro hm
        exact hnd.1 (pyStrip_mem hm)
      · intro hm
        exact hnd.2 (pyStrip_mem hm)
    omega

/-- Embeds `decoder.decode_ins`: tokenize, compute the `InsType` (or `None`), give
`^`-texts to `parse_if`, dispatch the table codes — positionally misaligned
for the step/type-signature parsers — and fall back to `parse`. -/
def decode_ins (tpls : TplMap) (raw_ins : RawIns) (algorithm_seq : Option Ctx)
    (program_version : Option PV) : Except Str (List Node) :=
  let insStr := raw_ins.ins
  let tokens := tokenize insStr
  let itc : Option Int := raw_ins.t.bind (fun v => if insTypeValid v then some v else none)
  if !insStr.isEmpty && sContains insStr '^' then
    parse_if tpls tokens raw_ins algorithm_seq program_version []
  else if itc = some 0 then
    parse_arithmetic tpls tokens (.dict raw_ins) (.ctxv algorithm_seq) (.pv program_version) none []
  else if itc = some 1 then
    parse_if tpls tokens raw_ins algorithm_seq program_version []
  else if itc = some 2 then
    parse_call tpls tokens raw_ins algorithm_seq program_version []
  else if itc = some 3 then
    parse_sort tpls tokens (.dict raw_ins) (.ctxv algorithm_seq) (.pv program_version) none []
  else if itc = some 4 then
    parse_mask tpls tokens (.dict raw_ins) (.ctxv algorithm_seq) (.pv program_version) none []
  else if itc = some 5 then
    parse_set_string tpls tokens (.dict raw_ins) (.ctxv algorithm_seq) (.pv program_version) none []
  else if itc = some 6 then
    parse_empty tpls tokens (.dict raw_ins) (.ctxv algorithm_seq) (.pv program_version) none []
  else if itc = some 86 then
    parse_string_addition tpls tokens raw_ins algorithm_seq (.pv program_version) none []
  else if itc = some 57 ∨ itc = some 58 ∨ itc = some 59 then
    parse_date_diff tpls tokens (.dict raw_ins) (.ctxv algorithm_seq) (.pv program_version) none []
  else if itc = some 126 then
    parse_date_addition tpls tokens (.dict raw_ins) (.ctxv algorithm_seq) (.pv program_version) none []
  else if itc = some 127 ∨ itc = some 128 ∨ itc = some 129 ∨ itc = some 130
      ∨ itc = some 133 ∨ itc = some 138 ∨ itc = some 142 ∨ itc = some 146 then
    parse_function tpls tokens (.dict raw_ins) (.ctxv algorithm_seq) (.pv program_version) none []
  else if itc = some 200 then
    parse_data_source tpls tokens raw_ins algorithm_seq program_version []
  else
    parse tpls tokens raw_ins algorithm_seq program_version none
termination_by 8 * raw_ins.ins.length + 4 * markerBit raw_ins.ins + 1
decreasing_by
  · omega

/-- Embeds `parser.parse`: compute the `InsType` (falling back to `UNKNOWN`), look
up the dispatch entry; text containing `#`, `^` or `+` goes to `decode_mif`;
record-signature parsers get the record, the rest get step/type positionally
(the six-argument call to the five-parameter `parse_call` raises
`TypeError`); unmatched codes produce the resolved-text fallback leaf. -/
def parse (tpls : TplMap) (tokens : List Token) (raw_ins : RawIns)
    (algorithm_or_dependency : Option Ctx) (program_version : Option PV)
    (dep_item : Option Ctx) : Except Str (List Node) :=
  let tc : Int :=
    match raw_ins.t with
    | some v => if insTypeValid v then v else -1
    | none => -1
  let step := raw_ins.n
  let insStr := raw_ins.ins
  match dispatchTemplate tc with
  | some tid =>
    if hM : (sContains raw_ins.ins '#' || sContains raw_ins.ins '^' || sContains raw_ins.ins '+') = true then
      .ok (decode_mif tpls raw_ins algorithm_or_dependency program_version tid)
    else if tc = 1 then
      parse_if tpls tokens raw_ins algorithm_or_dependency program_version tid
    else if tc = 86 then
      parse_string_addition tpls tokens raw_ins dep_item (.dep algorithm_or_dependency) program_version tid
    else if tc = 56 then
      parse_if_date tpls tokens raw_ins algorithm_or_dependency program_version tid
    else if tc = 200 then
      parse_data_source tpls tokens raw_ins algorithm_or_dependency program_version tid
    else if tc = 95 ∨ tc = 98 ∨ tc = 99 then
      parse_type_check tpls tokens raw_ins algorithm_or_dependency program_version tid
    else if tc = 0 then
      parse_arithmetic tpls tokens (.num step) (.ty (some tc)) (.dep algorithm_or_dependency) program_version tid
    else if tc = 2 then
      .error parseCallArityErr
    else if tc = 3 then
      parse_sort tpls tokens (.num step) (.ty (some tc)) (.dep algorithm_or_dependency) program_version tid
    else if tc = 4 then
      parse_mask tpls tokens (.num step) (.ty (some tc)) (.dep algorithm_or_dependency) program_version tid
    else if tc = 5 then
      parse_set_string tpls tokens (.num step) (.ty (some tc)) (.dep algorithm_or_dependency) program_version tid
    else if tc = 6 ∨ tc = 254 then
      parse_empty tpls tokens (.num step) (.ty (some tc)) (.dep algorithm_or_dependency) program_version tid
    else if tc = 57 ∨ tc = 58 ∨ tc = 59 then
      parse_date_diff tpls tokens (.num step) (.ty (some tc)) (.dep algorithm_or_dependency) program_version tid
    else if tc = 126 then
      parse_date_addition tpls tokens (.num step) (.ty (some tc)) (.dep algorithm_or_dependency) program_version tid
    else if tc = 94 ∨ tc = 193 ∨ tc = 194 then
      parse_rank_flag tpls tokens (.num step) (.ty (some tc)) (.dep algorithm_or_dependency) program_version tid
    else
      parse_function tpls tokens (.num step) (.ty (some tc)) (.dep algorithm_or_dependency) program_version tid
  | none => do
    let desc ← get_var_desc insStr (.dep algorithm_or_dependency) program_version
    .ok [.raw (.num step) (.ty (some tc)) none none insStr desc none]
termination_by 8 * raw_ins.ins.length + 4 * markerBit raw_ins.ins
decreasing_by
  · have hm1 : markerBit raw_ins.ins = 1 := by
      unfold markerBit
      rw [if_pos]
      assumption
    omega

end

/-! ## Control-flow linker

Modelled from the spec: no linker is present under `src` (spec section 4.6
describes it; sections 2 and 9 require decoding and linking to be separate
passes).  `link` resolves each Jump placeholder of a Conditional/Type-check
branch against the full step table, carrying the visited-step set of the
current traversal path; a revisited step becomes a terminal back-reference
marker, an unknown step is left as an unresolved Jump. -/

/-- A full step table: step number to that step's decoded node list. -/
abbrev StepTable : Type := List (Int × List Node)

/-- Look up a step's decoded nodes. -/
def lookupStep (table : StepTable) (t : Int) : Option (List Node) :=
  (table.find? (fun p => p.1 = t)).map Prod.snd

/-- Number of table steps not yet on the visited path (the termination
measure of the linker). -/
def countUnvisited (table : StepTable) (visited : List Int) : Nat :=
  ((table.map Prod.fst).filter (fun k => decide (k ∉ visited))).length

theorem filter_notMem_cons_le (l : List Int) (t : Int) (vis : List Int) :
    (l.filter (fun k => decide (k ∉ (t :: vis)))).length
      ≤ (l.filter (fun k => decide (k ∉ vis))).length :=
  (List.monotone_filter_right l (fun a ha => by
    simp only [decide_eq_true_eq, List.mem_cons, not_or] at ha ⊢
    exact ha.2)).length_le

theorem filter_notMem_cons_lt (l : List Int) (t : Int) (vis : List Int)
    (hmem : t ∈ l) (hnv : t ∉ vis) :
    (l.filter (fun k => decide (k ∉ (t :: vis)))).length
      < (l.filter (fun k => decide (k ∉ vis))).length := by
  induction l with
  | nil => cases hmem
  | cons a l ih =>
    by_cases ha : a = t
    · subst ha
      have e1 : (decide (a ∉ (a :: vis))) = false := by simp
      have e2 : (decide (a ∉ vis)) = true := by simpa using hnv
      rw [List.filter_cons, List.filter_cons, e1, e2]
      simp only [Bool.false_eq_true, if_false, if_true, List.length_cons]
      exact Nat.lt_succ_of_le (filter_notMem_cons_le l a vis)
    · have hmem2 : t ∈ l := by
        rcases List.mem_cons.mp hmem with h | h
        · exact absurd h.symm ha
        · exact h
      have hrec := ih hmem2
      by_cases hv : a ∈ vis
      · have e1 : (decide (a ∉ (t :: vis))) = false := by simp [hv]
        have e2 : (decide (a ∉ vis)) = false := by simp [hv]
        rw [List.filter_cons, List.filter_cons, e1, e2]
        simpa using hrec
      · have e2 : (decide (a ∉ vis)) = true := by simpa using hv
        rw [List.filter_cons, List.filter_cons, e2]
        by_cases h1 : a ∈ (t :: vis)
        · have e1 : (decide (a ∉ (t :: vis))) = false := by simp [h1]
          rw [e1]
          simp only [Bool.false_eq_true, if_false, if_true, List.length_cons]
          omega
        · have e1 : (decide (a ∉ (t :: vis))) = true := by simpa using h1
          rw [e1]
          simp only [if_true, List.length_cons]
          omega

theorem countUnvisited_cons_lt {table : StepTable} {t : Int} {vis : List Int}
    (hmem : t ∈ table.map Prod.fst) (hnv : t ∉ vis) :
    countUnvisited table (t :: vis) < countUnvisited table vis := by
  unfold countUnvisited
  exact filter_notMem_cons_lt _ _ _ hmem hnv

theorem lookupStep_mem {table : StepTable} {t : Int} {ns : List Node}
    (h : lookupStep table t = some ns) : t ∈ table.map Prod.fst := by
  unfold lookupStep at h
  rcases Option.map_eq_some'.mp h with ⟨p, hp, _⟩
  have hmem := List.mem_of_find?_eq_some hp
  have hpt := List.find?_some hp
  simp only [decide_eq_true_eq] at hpt
  subst hpt
  exact List.mem_map_of_mem _ hmem

mutual

/-- Modelled from the spec: link one node.  A Jump placeholder whose target
is on the current path becomes a terminal back-reference marker; a target
absent from the table stays an unresolved Jump; otherwise the target step's
own decoded node list is spliced in, recursively linked with the target
added to the path.  Conditional nodes have their branches linked in place;
all other nodes pass through unchanged. -/
def linkNode (table : StepTable) (visited : List Int) (n : Node) : List Node :=
  match n with
  | .jump s t tid st target e =>
    if hv : target ∈ visited then [.backRef target]
    else
      match hl : lookupStep table target with
      | some ns => linkList table (target :: visited) ns
      | none => [.jump s t tid st target e]
  | .ifN s t tid st cond tb fb e =>
    [.ifN s t tid st cond (linkList table visited tb) (linkList table visited fb) e]
  | other => [other]
termination_by (countUnvisited table visited, sizeOf n)
decreasing_by
  all_goals
    first
      | exact Prod.Lex.left _ _ (countUnvisited_cons_lt (lookupStep_mem hl) hv)
      | decreasing_tactic

/-- Modelled from the spec: link a node list left to right. -/
def linkList (table : StepTable) (visited : List Int) : List Node → List Node
  | [] => []
  | n :: ns => linkNode table visited n ++ linkList table visited ns
termination_by l => (countUnvisited table visited, sizeOf l)

end

/-- Modelled from the spec: `link(per_instruction_nodes, full_step_table)` —
link an algorithm by resolving the first step's node list against the whole
table, with the entry step as the initial path. -/
def linkAlgorithm (table : StepTable) : List Node :=
  match table with
  | [] => []
  | (s0, ns) :: _ => linkList table [s0] ns

/-! ## Shared concrete fixtures for the claim theorems -/

/-- An empty template table (no `templates.yml` entries resolved). -/
def emptyT : TplMap := fun _ => none

/-- A program version with an empty input dictionary. -/
def pv0 : PV := ⟨⟨[]⟩⟩

/-- Whether a node is an Arithmetic node. -/
def isArithNode : Node → Bool
  | .arith _ _ _ _ _ _ _ _ _ => true
  | _ => false

/-- The rounding-specification attribute of a node. -/
def roundSpecOf : Node → Option Str
  | .arith _ _ _ _ _ _ rs _ _ => rs
  | .func _ _ _ _ _ rs _ => rs
  | _ => none

/-! ## C3 — variable resolver with absent context -/

/-- C3: the claim states that `get_var_desc` returns a description without
raising when either or both context arguments are `None`, and returns the
token unchanged when both are absent.  The code instead evaluates
`program_version.data_dictionary` unconditionally once the dependency scan
misses, so a `None` program version raises `AttributeError` for every token:
with both contexts absent the call always raises instead of returning the
token.  This theorem evaluates the embedded code at the failing inputs. -/
theorem c3_get_var_desc_none_raises :
    ∀ (key : Str), get_var_desc key (.dep none) none = .error noneDataDictErr :=
  fun _ => rfl

/-! ## C10 — tokenizer token invariant -/

/-- C10: every token produced by `tokenize` has a non-empty, non-whitespace
value, and its kind is operator/delimiter exactly when the value is one of
the fixed delimiter strings `|`, `^`, `+`, `>=`, `<=`, `=`, `>`, `<`, `!R2`,
`!RN`, `!RS`, `!`, `~`, `{`, `}`, `[`, `]` (the `DELIMS` list), and word
otherwise. -/
theorem c10_tokenize_invariant :
    ∀ (raw : Str), ∀ tok ∈ tokenize raw,
      tok.value ≠ [] ∧ pyIsSpace tok.value = false
        ∧ (tok.kind = TokKind.OP ↔ tok.value ∈ DELIMS) := by
  intro raw tok htok
  unfold tokenize at htok
  split at htok
  · cases htok
  · rcases List.mem_map.mp htok with ⟨p, hp, hcl⟩
    rcases List.mem_filter.mp hp with ⟨_, hpred⟩
    have h1 : p.isEmpty = false ∧ pyIsSpace p = false := by
      simpa using hpred
    subst hcl
    by_cases hd : p ∈ DELIMS
    · refine ⟨?_, ?_, ?_⟩
      · simp [classifyPart, hd]
        intro hnil
        rw [hnil] at h1
        simp [List.isEmpty] at h1
      · simp [classifyPart, hd]
        exact h1.2
      · simp [classifyPart, hd]
    · refine ⟨?_, ?_, ?_⟩
      · simp [classifyPart, hd]
        intro hnil
        rw [hnil] at h1
        simp [List.isEmpty] at h1
      · simp [classifyPart, hd]
        exact h1.2
      · simp [classifyPart, hd]

/-- Witness for C10 at the concrete input `GI_84+GC_47!RN`: its first token
is a non-empty word, and its `!RN` token is an operator in the delimiter
set. -/
theorem c10_tokenize_invariant_witness :
    (⟨TokKind.WORD, "GI_84".toList⟩ : Token) ∈ tokenize "GI_84+GC_47!RN".toList
      ∧ ((⟨TokKind.WORD, "GI_84".toList⟩ : Token).value ≠ []
        ∧ pyIsSpace (⟨TokKind.WORD, "GI_84".toList⟩ : Token).value = false
        ∧ ((⟨TokKind.WORD, "GI_84".toList⟩ : Token).kind = TokKind.OP
            ↔ (⟨TokKind.WORD, "GI_84".toList⟩ : Token).value ∈ DELIMS)) :=
  ⟨by decide, c10_tokenize_invariant "GI_84+GC_47!RN".toList _ (by decide)⟩

/-! ## C7 — trailing rounding-marker detachment -/

/-- C7: for a token list ending in `!RN`, `!RP2` or `!RM1`, both
`parse_arithmetic` and `parse_function` detach that trailing token before
validating the operand shape (the detachment is `stripRound`, and the shape
check and fallback run on the remaining tokens), and any node they produce
carries rounding specification equal to the token minus its leading `!`. -/
theorem c7_round_marker_strip :
    ∀ (tpls : TplMap) (ts : List Token) (k : TokKind) (r : Str)
      (step : StepArg) (ty : TyArg) (aod : CtxArg) (pv : Option PV) (tid : Str),
      (r = "!RN".toList ∨ r = "!RP2".toList ∨ r = "!RM1".toList) →
      stripRound (ts ++ [⟨k, r⟩]) = (ts, some (r.drop 1))
      ∧ (ts.length < 3 →
          parse_arithmetic tpls (ts ++ [⟨k, r⟩]) step ty aod pv tid
            = .ok [.raw step ty (some tid) none []
                (joinSep [' '] (ts.map (fun t => t.value))) none])
      ∧ (∀ nodes, 3 ≤ ts.length →
          parse_arithmetic tpls (ts ++ [⟨k, r⟩]) step ty aod pv tid = .ok nodes →
          ∃ left op right e, nodes
            = [.arith step ty (some tid) left op right (some (r.drop 1)) none (some e)])
      ∧ (∀ nodes, parse_function tpls (ts ++ [⟨k, r⟩]) step ty aod pv tid = .ok nodes →
          ∃ nm args e, nodes = [.func step ty (some tid) nm args (some (r.drop 1)) (some e)]) := by
  intro tpls ts k r step ty aod pv tid hr
  have hpfx : (['!'].isPrefixOf r) = true := by
    rcases hr with rfl | rfl | rfl <;> decide
  have hstrip : stripRound (ts ++ [⟨k, r⟩]) = (ts, some (r.drop 1)) := by
    unfold stripRound
    rw [List.getLast?_concat]
    simp only [hpfx, if_true, List.dropLast_concat]
  refine ⟨hstrip, ?_, ?_, ?_⟩
  · intro hlen
    unfold parse_arithmetic
    rw [hstrip]
    match ts, hlen with
    | [], _ => rfl
    | [t0], _ => rfl
    | [t0, t1], _ => rfl
  · intro nodes hlen hok
    unfold parse_arithmetic at hok
    rw [hstrip] at hok
    match ts, hlen, hok with
    | t0 :: t1 :: t2 :: rest, _, hok =>
      simp only [bind, Except.bind] at hok
      rcases h1 : get_var_desc t0.value aod pv with e1 | d1 <;> rw [h1] at hok
      · cases hok
      · rcases h2 : get_var_desc t2.value aod pv with e2 | d2 <;> rw [h2] at hok
        · cases hok
        · simp only [Node.setEnglish] at hok
          rcases hok
          exact ⟨_, _, _, _, rfl⟩
  · intro nodes hok
    unfold parse_function at hok
    rw [hstrip] at hok
    simp only [bind, Except.bind] at hok
    rcases h1 : tyArgName ty with e1 | nm1 <;> rw [h1] at hok
    · cases hok
    · simp only [Node.setEnglish] at hok
      rcases hok
      exact ⟨_, _, _, rfl⟩

/-- Witness for C7: the arithmetic tokens of `GI_84+GC_47!RN` and of a short
`GC_47!RP2` list, with the markers detached and the rounding specification
set to `RN` (and the short list falling back after the strip). -/
theorem c7_round_marker_strip_witness :
    ("!RN".toList = "!RN".toList ∨ "!RN".toList = "!RP2".toList ∨ "!RN".toList = "!RM1".toList)
    ∧ stripRound ([⟨TokKind.WORD, "GI_84".toList⟩, ⟨TokKind.OP, "+".toList⟩,
          ⟨TokKind.WORD, "GC_47".toList⟩] ++ [⟨TokKind.OP, "!RN".toList⟩])
        = ([⟨TokKind.WORD, "GI_84".toList⟩, ⟨TokKind.OP, "+".toList⟩,
            ⟨TokKind.WORD, "GC_47".toList⟩], some ("!RN".toList.drop 1)) := by
  refine ⟨Or.inl rfl, ?_⟩
  exact (c7_round_marker_strip emptyT
    [⟨TokKind.WORD, "GI_84".toList⟩, ⟨TokKind.OP, "+".toList⟩, ⟨TokKind.WORD, "GC_47".toList⟩]
    TokKind.OP "!RN".toList (.num 1) (.ty (some 0)) (.dep none) (some pv0)
    "ASSIGNMENT".toList (Or.inl rfl)).1

/-! ## C4 — branch population from next-step fields -/

/-- C4 counterexample: the claim requires a branch to be populated only when
the next-step field is present *and positive*.  `parse_type_check` checks
positivity, but `parse_if` populates a branch for any present value: here
`seq_t = 0` and `seq_f = -2` (both non-positive sentinels) still produce
single-element Jump placeholders in both branches. -/
theorem c4_counterexample_parse_if_nonpositive :
    parse_if emptyT [] ⟨7, some 1, "|A|=|B|".toList, none, some 0, some (-2)⟩
        none (some pv0) "IF_COMPARE".toList
      = .ok [.ifN (.num 7) (.ty (some 1)) (some "IF_COMPARE".toList) none
          (.compare (.num 7) (.ty (some 1)) none
            (.raw (.num 7) (.ty (some 1)) (some "IF_COMPARE".toList) none "A".toList "A".toList none)
            "=".toList
            (.raw (.num 7) (.ty (some 1)) (some "IF_COMPARE".toList) none "B".toList "B".toList none)
            (some []))
          [.jump (.num 7) (.ty (some 1)) (some "JUMP".toList) none 0
            (some "No Template found: JUMP".toList)]
          [.jump (.num 7) (.ty (some 1)) (some "JUMP".toList) none (-2)
            (some "No Template found: JUMP".toList)]
          none]
    ∧ ([Node.jump (.num 7) (.ty (some 1)) (some "JUMP".toList) none 0
          (some "No Template found: JUMP".toList)] : List Node) ≠ [] := by
  constructor
  · rfl
  · exact List.cons_ne_nil _ _

/-- C4 as amended: for type-check instructions a branch is a single-element
Jump placeholder exactly when the next-step field is present and positive
(absent or non-positive leaves it empty); for plain conditional instructions
(`parse_if`) a branch is populated exactly when the field is present,
whatever its sign. -/
theorem c4_amended_branch_population :
    ∀ (tpls : TplMap) (tokens : List Token) (rec : RawIns) (c : Option Ctx)
      (p : Option PV) (tid : Str) (tcv : Int),
      insTypeGet0 rec.t = .ok tcv →
      (∀ nodes, parse_type_check tpls tokens rec c p tid = .ok nodes →
        ∃ cond, nodes = [.ifN (.num rec.n) (.ty (some tcv)) (some "TYPE_CHECK".toList)
          (some tcv) cond
          (match rec.seq_t with
           | some v =>
             if v > 0 then
               [.jump (.num rec.n) (.ty (some tcv)) (some "JUMP".toList) (some tcv) v none]
             else []
           | none => [])
          (match rec.seq_f with
           | some v =>
             if v > 0 then
               [.jump (.num rec.n) (.ty (some tcv)) (some "JUMP".toList) (some tcv) v none]
             else []
           | none => []) none])
      ∧ (∀ nodes, parse_if tpls tokens rec c p tid = .ok nodes →
        ∃ cond tb fb, nodes = [.ifN (.num rec.n) (.ty (some tcv)) (some tid) none cond tb fb none]
          ∧ (tb = [] ↔ rec.seq_t = none) ∧ (fb = [] ↔ rec.seq_f = none)
          ∧ (∀ v, rec.seq_t = some v → ∃ j, tb = [j])
          ∧ (∀ v, rec.seq_f = some v → ∃ j, fb = [j])) := by
  intro tpls tokens rec c p tid tcv htc
  constructor
  · intro nodes hok
    unfold parse_type_check at hok
    rw [htc] at hok
    simp only [bind, Except.bind] at hok
    split at hok
    · cases hok
    · cases hok
      exact ⟨_, rfl⟩
  · intro nodes hok
    unfold parse_if at hok
    rw [htc] at hok
    simp only [bind, Except.bind] at hok
    split at hok
    · cases hok
    · split at hok
      · cases hok
      · cases hok
        refine ⟨_, _, _, rfl, ?_, ?_, ?_, ?_⟩
        · cases hseq : rec.seq_t <;> simp [hseq]
        · cases hseq : rec.seq_f <;> simp [hseq]
        · intro v hseq
          rw [hseq]
          exact ⟨_, rfl⟩
        · intro v hseq
          rw [hseq]
          exact ⟨_, rfl⟩

/-- Witness for C4 at a concrete type-check record (`seq_t = 3` positive,
`seq_f = -1` sentinel): the true branch is a single Jump, the false branch is
empty; and at a concrete conditional record the branch is populated for the
present field and empty for the absent one. -/
theorem c4_amended_branch_population_witness :
    insTypeGet0 (some (95 : Int)) = .ok 95
    ∧ (∃ cond, ∃ nodes, parse_type_check emptyT [⟨TokKind.WORD, "GI_5".toList⟩]
        ⟨2, some 95, "GI_5|=|".toList, none, some 3, some (-1)⟩ none (some pv0) "IS_DATE".toList
          = .ok nodes
        ∧ nodes = [.ifN (.num 2) (.ty (some 95)) (some "TYPE_CHECK".toList) (some 95) cond
            [.jump (.num 2) (.ty (some 95)) (some "JUMP".toList) (some 95) 3 none] [] none]) := by
  constructor
  · rfl
  · have h := (c4_amended_branch_population emptyT [⟨TokKind.WORD, "GI_5".toList⟩]
      ⟨2, some 95, "GI_5|=|".toList, none, some 3, some (-1)⟩ none (some pv0)
      "IS_DATE".toList 95 rfl).1
    rcases h _ rfl with ⟨cond, hcond⟩
    exact ⟨cond, _, rfl, hcond⟩

/-! ## C8 — renderer totality, fallback, and node mutation -/

/-- A template table resolving only the `ASSIGNMENT` id (to a template
rendering the empty string), standing for a `templates.yml` that covers the
template ids the dispatch table assigns (spec section 4.7). -/
def tplsAssign : TplMap :=
  fun tid => if tid = "ASSIGNMENT".toList then some (fun _ => []) else none

/-- C8 counterexample: `render(node)` is claimed to leave the node's fields
unchanged.  But for an Assignment node whose template id resolves and whose
expression is a plain leaf (exactly what `parse_set_string` builds), the
render context evaluates `node.expr.args`, the `AttributeError` is caught,
and its text is written into the node's `english` attribute: the node passed
in is mutated. -/
theorem c8_counterexample_render_mutates :
    render_node tplsAssign
        (.assign (.num 1) (.ty (some 5)) (some "ASSIGNMENT".toList) "X".toList
          (.raw (.num 1) (.ty (some 5)) (some "ASSIGNMENT".toList) none [] "Y".toList none)
          none none none none)
      = (attrErr "RawNode".toList "args".toList,
         .assign (.num 1) (.ty (some 5)) (some "ASSIGNMENT".toList) "X".toList
          (.raw (.num 1) (.ty (some 5)) (some "ASSIGNMENT".toList) none [] "Y".toList none)
          none none none (some (attrErr "RawNode".toList "args".toList)))
    ∧ (Node.assign (.num 1) (.ty (some 5)) (some "ASSIGNMENT".toList) "X".toList
          (.raw (.num 1) (.ty (some 5)) (some "ASSIGNMENT".toList) none [] "Y".toList none)
          none none none (some (attrErr "RawNode".toList "args".toList)))
      ≠ (Node.assign (.num 1) (.ty (some 5)) (some "ASSIGNMENT".toList) "X".toList
          (.raw (.num 1) (.ty (some 5)) (some "ASSIGNMENT".toList) none [] "Y".toList none)
          none none none none) := by
  constructor
  · rfl
  · intro h
    cases h

/-- C8 as amended: `render_node` is total (it returns a text for every node
and template table — never raises), and on a template-table miss it returns
the node's pre-computed description or an explicit no-template marker and
leaves the node unchanged; on a hit, the only field it may change is
`english`, which then holds exactly the returned text. -/
theorem c8_amended_render_total_fallback :
    ∀ (tpls : TplMap) (node : Node),
      ((node.templateIdOf).bind tpls = none →
        render_node tpls node = (fallbackText node, node))
      ∧ ((render_node tpls node).2 = node
          ∨ (render_node tpls node).2 = node.setEnglish (some (render_node tpls node).1)) := by
  intro tpls node
  constructor
  · intro hmiss
    unfold render_node
    rw [hmiss]
  · unfold render_node
    rcases hl : (node.templateIdOf).bind tpls with _ | tpl
    · left
      rfl
    · rcases ht : renderTry tpl node with e | s
      · right
        simp only [ht]
      · left
        simp only [ht]

/-- Witness for C8 at a concrete leaf with no template table entry: the
renderer returns the no-template marker and the node untouched. -/
theorem c8_amended_render_total_fallback_witness :
    ((Node.raw (.num 1) (.ty (some 0)) none none [] "GI_84".toList none).templateIdOf).bind emptyT
        = none
    ∧ render_node emptyT (.raw (.num 1) (.ty (some 0)) none none [] "GI_84".toList none)
      = (fallbackText (.raw (.num 1) (.ty (some 0)) none none [] "GI_84".toList none),
         .raw (.num 1) (.ty (some 0)) none none [] "GI_84".toList none) :=
  ⟨rfl, (c8_amended_render_total_fallback emptyT
    (.raw (.num 1) (.ty (some 0)) none none [] "GI_84".toList none)).1 rfl⟩

/-! ## C6 — the variable-token grammar -/

theorem pyIsDigit_not_mem {ds : Str} {c : Char} (h : pyIsDigit ds = true)
    (hc : c.isDigit = false) : c ∉ ds := by
  intro hmem
  unfold pyIsDigit at h
  rw [Bool.and_eq_true, List.all_eq_true] at h
  have := h.2 c hmem
  rw [hc] at this
  cases this

theorem pyIsDigit_ne_nil {ds : Str} (h : pyIsDigit ds = true) : ds ≠ [] := by
  intro hnil
  rw [hnil] at h
  cases h

theorem takeWhile_append_all {p : Char → Bool} {l1 l2 : Str}
    (h : ∀ x ∈ l1, p x = true) : (l1 ++ l2).takeWhile p = l1 ++ l2.takeWhile p := by
  induction l1 with
  | nil => simp
  | cons a l ih =>
    have ha : p a = true := h a (List.mem_cons_self _ _)
    simp only [List.cons_append, List.takeWhile_cons, ha, if_true]
    rw [ih (fun x hx => h x (List.mem_cons_of_mem _ hx))]

theorem dropWhile_append_all {p : Char → Bool} {l1 l2 : Str}
    (h : ∀ x ∈ l1, p x = true) : (l1 ++ l2).dropWhile p = l2.dropWhile p := by
  induction l1 with
  | nil => simp
  | cons a l ih =>
    have ha : p a = true := h a (List.mem_cons_self _ _)
    simp only [List.cons_append, List.dropWhile_cons, ha, if_true]
    exact ih (fun x hx => h x (List.mem_cons_of_mem _ hx))

theorem sContains_false_of_not_mem {s : Str} {c : Char} (h : c ∉ s) :
    sContains s c = false := by
  rw [← Bool.not_eq_true]
  intro hc
  exact h (sContains_iff.mp hc)

/-- C6: after removing at most one leading negation/delta marker
(`stripTok`), a token of the form `<two-character prefix>_<digits>` or
`<two-character prefix>_<digits>.<digits>` parses to exactly that prefix,
numeric id and optional numeric sub-id; a token without an underscore, or
one whose id part (the text after the position-2 underscore of the grammar)
or sub-id part is not purely numeric, yields the malformed-variable
`ValueError`, carrying the marker-stripped token. -/
theorem c6_split_var_token_grammar :
    ∀ (t : Str),
      (∀ p ds, p.length = 2 → pyIsDigit ds = true →
        stripTok t = p ++ '_' :: ds →
        split_var_token t = .ok (p, digitsToNat ds, none))
      ∧ (∀ p ds d2, p.length = 2 → pyIsDigit ds = true → pyIsDigit d2 = true →
        stripTok t = p ++ '_' :: (ds ++ '.' :: d2) →
        split_var_token t = .ok (p, digitsToNat ds, some (digitsToNat d2)))
      ∧ (sContains (stripTok t) '_' = false →
        split_var_token t = .error (.cannotParse (stripTok t)))
      ∧ ((stripTok t).get? 2 = some '_' →
        (sContains ((stripTok t).drop 3) '.' = false →
          pyIsDigit ((stripTok t).drop 3) = false →
          split_var_token t = .error (.badNumericId (stripTok t)))
        ∧ (sContains ((stripTok t).drop 3) '.' = true →
          (pyIsDigit (((stripTok t).drop 3).takeWhile (fun c => c != '.')) = false
            ∨ pyIsDigit ((((stripTok t).drop 3).dropWhile (fun c => c != '.')).drop 1) = false) →
          split_var_token t = .error (.badNumericIds (stripTok t)))) := by
  intro t
  refine ⟨?_, ?_, ?_, ?_⟩
  · intro p ds hp hds hs
    unfold split_var_token
    rw [hs]
    have hu : sContains (p ++ '_' :: ds) '_' = true := by
      rw [sContains_iff]
      exact List.mem_append_right _ (List.mem_cons_self _ _)
    have hlen : ¬((p ++ '_' :: ds).length < 3) := by
      simp only [List.length_append, List.length_cons]
      omega
    rw [if_neg (by simp [hu]; omega)]
    have htake : (p ++ '_' :: ds).take 2 = p := by
      rw [← hp]
      exact List.take_left _ _
    have hdrop : (p ++ '_' :: ds).drop 3 = ds := by
      have hre : p ++ '_' :: ds = (p ++ ['_']) ++ ds := by simp
      have hl3 : (p ++ ['_']).length = 3 := by simp [hp]
      rw [hre, ← hl3]
      exact List.drop_left _ _
    rw [htake, hdrop]
    have hnodot : sContains ds '.' = false :=
      sContains_false_of_not_mem (pyIsDigit_not_mem hds (by decide))
    simp [hnodot, hds]
  · intro p ds d2 hp hds hd2 hs
    unfold split_var_token
    rw [hs]
    have hu : sContains (p ++ '_' :: (ds ++ '.' :: d2)) '_' = true := by
      rw [sContains_iff]
      exact List.mem_append_right _ (List.mem_cons_self _ _)
    have hlen : ¬((p ++ '_' :: (ds ++ '.' :: d2)).length < 3) := by
      simp only [List.length_append, List.length_cons]
      omega
    rw [if_neg (by simp [hu]; omega)]
    have htake : (p ++ '_' :: (ds ++ '.' :: d2)).take 2 = p := by
      rw [← hp]
      exact List.take_left _ _
    have hdrop : (p ++ '_' :: (ds ++ '.' :: d2)).drop 3 = ds ++ '.' :: d2 := by
      have hre : p ++ '_' :: (ds ++ '.' :: d2) = (p ++ ['_']) ++ (ds ++ '.' :: d2) := by simp
      have hl3 : (p ++ ['_']).length = 3 := by simp [hp]
      rw [hre, ← hl3]
      exact List.drop_left _ _
    rw [htake, hdrop]
    have hdsall : ∀ x ∈ ds, (x != '.') = true := by
      intro x hx
      rw [bne_iff_ne]
      intro hxe
      exact pyIsDigit_not_mem hds (by decide) (hxe ▸ hx)
    have hdot : sContains (ds ++ '.' :: d2) '.' = true := by
      rw [sContains_iff]
      exact List.mem_append_right _ (List.mem_cons_self _ _)
    have htw : (ds ++ '.' :: d2).takeWhile (fun c => c != '.') = ds := by
      rw [takeWhile_append_all hdsall]
      simp [List.takeWhile_cons]
    have hdw : ((ds ++ '.' :: d2).dropWhile (fun c => c != '.')).drop 1 = d2 := by
      rw [dropWhile_append_all hdsall]
      simp [List.dropWhile_cons]
    simp [hdot, htw, hdw, hds, hd2]
  · intro hnu
    unfold split_var_token
    simp [hnu]
  · intro hg
    have hmem : '_' ∈ stripTok t := List.get?_mem hg
    have hlen : 2 < (stripTok t).length := by
      rcases List.get?_eq_some.mp hg with ⟨hlt, _⟩
      exact hlt
    have hu : sContains (stripTok t) '_' = true := sContains_iff.mpr hmem
    constructor
    · intro hnd hnotdig
      unfold split_var_token
      rw [if_neg (by simp [hu]; omega)]
      simp [hnd, hnotdig]
    · intro hdot hbad
      unfold split_var_token
      rw [if_neg (by simp [hu]; omega)]
      rcases hbad with hb | hb
      · simp [hdot, hb]
      · simp only [hdot, if_true, hb, Bool.not_false, Bool.or_true]

/-- Witness for C6: `~GI_84.2` parses to prefix `GI`, id 84, sub-id 2;
`GC47` (no underscore) and `AB_1X` (non-numeric id part) produce the
malformed-variable error. -/
theorem c6_split_var_token_grammar_witness :
    split_var_token "~GI_84.2".toList
        = .ok ("GI".toList, 84, some 2)
    ∧ split_var_token "GC47".toList = .error (.cannotParse "GC47".toList)
    ∧ split_var_token "AB_1X".toList = .error (.badNumericId "AB_1X".toList) := by
  refine ⟨?_, ?_, ?_⟩
  · exact (c6_split_var_token_grammar "~GI_84.2".toList).2.1 "GI".toList "84".toList "2".toList
      (by decide) (by decide) (by decide) (by decide)
  · exact (c6_split_var_token_grammar "GC47".toList).2.2.1 (by decide)
  · exact ((c6_split_var_token_grammar "AB_1X".toList).2.2.2 (by decide)).1 (by decide) (by decide)

/-! ## C1/C5 — decoding `{step=1, type=ARITHMETIC, text="GI_84+GC_47!RN"}` -/

/-- Shared evaluation: the `+` in the arithmetic text sends `parse` into
`decode_mif`, which splits the text at the `+` into two fragments and
re-decodes each through `decode_ins`; the positionally misaligned
`parse_arithmetic` calls put each fragment record into the `step` slot and
fall back to single leaves (one token is fewer than three). -/
theorem parse_plus_splits_arithmetic :
    parse emptyT (tokenize "GI_84+GC_47!RN".toList)
        ⟨1, some 0, "GI_84+GC_47!RN".toList, none, none, none⟩ none none none
      = .ok [.raw (.dict ⟨1, some 0, "GI_84".toList, none, none, none⟩) (.ctxv none)
               (some []) none [] "GI_84".toList none,
             .raw (.dict ⟨1, some 0, "GC_47!RN".toList, none, none, none⟩) (.ctxv none)
               (some []) none [] "GC_47".toList none] := by
  rw [parse]
  simp +decide only [dispatchTemplate, ite_true, ite_false, dite_true, dite_false]
  rw [decode_mif]
  simp +decide only [ite_true, ite_false, dite_true, dite_false]
  have hfrag : fragSplit ("GI_84+GC_47!RN".toList) = ["GI_84".toList, "GC_47!RN".toList] := by
    decide
  rw [hfrag]
  simp only [List.attach, List.attachWith, List.pmap, List.map_cons, List.map_nil]
  rw [decode_ins, decode_ins]
  simp +decide only []
  rfl

/-- C1 counterexample: decoding the instruction
`{step=1, type=ARITHMETIC, text="GI_84+GC_47!RN"}` through tokenize and the
parser dispatch does *not* yield an Arithmetic node: the `+` routes the text
into the multi-condition splitter and the result is two plain leaves (values
`GI_84` and `GC_47`), none of them an Arithmetic node. -/
theorem c1_counterexample_plus_is_split :
    parse emptyT (tokenize "GI_84+GC_47!RN".toList)
        ⟨1, some 0, "GI_84+GC_47!RN".toList, none, none, none⟩ none none none
      = .ok [.raw (.dict ⟨1, some 0, "GI_84".toList, none, none, none⟩) (.ctxv none)
               (some []) none [] "GI_84".toList none,
             .raw (.dict ⟨1, some 0, "GC_47!RN".toList, none, none, none⟩) (.ctxv none)
               (some []) none [] "GC_47".toList none]
    ∧ ([Node.raw (.dict ⟨1, some 0, "GI_84".toList, none, none, none⟩) (.ctxv none)
          (some []) none [] "GI_84".toList none,
        Node.raw (.dict ⟨1, some 0, "GC_47!RN".toList, none, none, none⟩) (.ctxv none)
          (some []) none [] "GC_47".toList none].all (fun n => !isArithNode n)) = true :=
  ⟨parse_plus_splits_arithmetic, rfl⟩

/-- C1 as amended: the arithmetic rule itself (`parse_arithmetic`, applied
to the instruction's token list) yields exactly one Arithmetic node with
left raw `GI_84`, operator `+`, right raw `GC_47` and rounding specification
`RN`; the full parser dispatch instead routes the record through the
multi-condition splitter (`+` doubles as the AND joiner) and yields two
plain leaves. -/
theorem c1_amended_arithmetic_rule :
    parse_arithmetic emptyT (tokenize "GI_84+GC_47!RN".toList) (.num 1) (.ty (some 0))
        (.dep none) (some pv0) "ASSIGNMENT".toList
      = .ok [.arith (.num 1) (.ty (some 0)) (some "ASSIGNMENT".toList)
          (.raw (.num 1) (.ty (some 0)) (some "ASSIGNMENT".toList) none
            "GI_84".toList "GI_84".toList none)
          "+".toList
          (.raw (.num 1) (.ty (some 0)) (some "ASSIGNMENT".toList) none
            "GC_47".toList "GC_47".toList none)
          (some "RN".toList) none
          (some "No Template found: ASSIGNMENT".toList)]
    ∧ parse emptyT (tokenize "GI_84+GC_47!RN".toList)
        ⟨1, some 0, "GI_84+GC_47!RN".toList, none, none, none⟩ none none none
      = .ok [.raw (.dict ⟨1, some 0, "GI_84".toList, none, none, none⟩) (.ctxv none)
               (some []) none [] "GI_84".toList none,
             .raw (.dict ⟨1, some 0, "GC_47!RN".toList, none, none, none⟩) (.ctxv none)
               (some []) none [] "GC_47".toList none] :=
  ⟨rfl, parse_plus_splits_arithmetic⟩

/-- C5 counterexample: on the multi-condition path the nodes do not carry
the instruction's step number: `decode_ins` passes the fragment record
itself into the parser's `step` slot, so the leaf's step field holds the
record, not the integer 1. -/
theorem c5_counterexample_step_field :
    parse emptyT (tokenize "GI_84+GC_47!RN".toList)
        ⟨1, some 0, "GI_84+GC_47!RN".toList, none, none, none⟩ none none none
      = .ok [.raw (.dict ⟨1, some 0, "GI_84".toList, none, none, none⟩) (.ctxv none)
               (some []) none [] "GI_84".toList none,
             .raw (.dict ⟨1, some 0, "GC_47!RN".toList, none, none, none⟩) (.ctxv none)
               (some []) none [] "GC_47".toList none]
    ∧ (Node.raw (.dict ⟨1, some 0, "GI_84".toList, none, none, none⟩) (.ctxv none)
         (some []) none [] "GI_84".toList none).stepOf
        = some (.dict ⟨1, some 0, "GI_84".toList, none, none, none⟩)
    ∧ (some (StepArg.dict ⟨1, some 0, "GI_84".toList, none, none, none⟩) : Option StepArg)
        ≠ some (.num 1) :=
  ⟨parse_plus_splits_arithmetic, rfl, by decide⟩

/-! ## C5 — step numbers across the multi-condition split (IF fragments) -/

theorem parse_if_ok_steps :
    ∀ (tpls : TplMap) (tokens : List Token) (rec : RawIns) (c : Option Ctx)
      (p : Option PV) (tid : Str) (nodes : List Node),
      parse_if tpls tokens rec c p tid = .ok nodes →
      ∀ nd ∈ nodes, nd.stepOf = some (.num rec.n) := by
  intro tpls tokens rec c p tid nodes hok nd hmem
  unfold parse_if at hok
  simp only [bind, Except.bind] at hok
  split at hok
  · cases hok
  · split at hok
    · cases hok
    · split at hok
      · cases hok
      · cases hok
        rw [List.mem_singleton] at hmem
        subst hmem
        rfl

theorem decode_ins_if_ok_steps :
    ∀ (tpls : TplMap) (rec : RawIns) (aseq : Option Ctx) (pv : Option PV)
      (nodes : List Node),
      rec.t = some 1 →
      decode_ins tpls rec aseq pv = .ok nodes →
      ∀ nd ∈ nodes, nd.stepOf = some (.num rec.n) := by
  intro tpls rec aseq pv nodes ht hok nd hmem
  rw [decode_ins] at hok
  rw [ht] at hok
  simp +decide only [Option.some_bind, ite_true, ite_false] at hok
  split at hok
  · exact parse_if_ok_steps _ _ _ _ _ _ _ hok nd hmem
  · exact parse_if_ok_steps _ _ _ _ _ _ _ hok nd hmem

theorem decodeInsPiece_steps :
    ∀ (tpls : TplMap) (rec : RawIns) (c : Option Ctx) (p : Option PV)
      (s : Str) (tidf : Option Str),
      rec.t = some 1 →
      ∀ nd ∈ (match decode_ins tpls { rec with ins := s } c p with
              | .ok ns => ns
              | .error e =>
                [Node.raw (.num rec.n) (.ty rec.t) tidf none []
                  ("ERROR: ".toList ++ e) none]),
        nd.stepOf = some (.num rec.n) := by
  intro tpls rec c p s tidf ht nd hmem
  rcases hdec : decode_ins tpls { rec with ins := s } c p with e | ns
  · rw [hdec] at hmem
    rw [List.mem_singleton] at hmem
    subst hmem
    rfl
  · rw [hdec] at hmem
    have hts : ({ rec with ins := s } : RawIns).t = some 1 := ht
    have := decode_ins_if_ok_steps tpls { rec with ins := s } c p ns hts hdec nd hmem
    exact this

/-- C5 as amended: on the multi-condition path, every node produced for an
IF-typed instruction (type code 1, the instruction kind the splitter is for)
carries the originating record's step number — fragments re-decoded through
`decode_ins` dispatch to the record-taking `parse_if`, and fragment failures
become error leaves stamped with the record's step.  (For other type codes
the misaligned positional dispatch of `decode_ins` stores the fragment
record itself in the step slot; see the counterexample.) -/
theorem c5_amended_mif_if_steps :
    ∀ (tpls : TplMap) (rec : RawIns) (c : Option Ctx) (p : Option PV) (tid : Str),
      rec.t = some 1 →
      ∀ nd ∈ decode_mif tpls rec c p tid, nd.stepOf = some (.num rec.n) := by
  intro tpls rec c p tid ht nd hmem
  rw [decode_mif] at hmem
  by_cases hH : sContains rec.ins '#' = true
  · rw [dif_pos hH] at hmem
    rcases List.mem_append.mp hmem with hb | hf
    · split at hb
      · cases hb
      · exact decodeInsPiece_steps tpls rec c p _ (some tid) ht nd hb
    · rcases List.mem_flatten.mp hf with ⟨piece, hpc, hnd⟩
      rcases List.mem_map.mp hpc with ⟨fr, _, hpe⟩
      rw [← hpe] at hnd
      exact decodeInsPiece_steps tpls rec c p _ none ht nd hnd
  · rw [dif_neg hH] at hmem
    rcases List.mem_flatten.mp hmem with ⟨piece, hpc, hnd⟩
    rcases List.mem_map.mp hpc with ⟨fr, _, hpe⟩
    rw [← hpe] at hnd
    exact decodeInsPiece_steps tpls rec c p _ none ht nd hnd

/-- Witness for C5 at the concrete IF record `{step=3, type=IF, text="A^B"}`
decoded without context: both fragments fail inside `decode_ins` (variable
lookup without a program version), and the resulting error leaves still
carry step 3. -/
theorem c5_amended_mif_if_steps_witness :
    (⟨3, some 1, "A^B".toList, none, none, none⟩ : RawIns).t = some 1
    ∧ (Node.raw (.num 3) (.ty (some 1)) none none []
        ("ERROR: ".toList ++ noneDataDictErr) none).stepOf = some (.num 3) := by
  constructor
  · rfl
  · apply c5_amended_mif_if_steps emptyT ⟨3, some 1, "A^B".toList, none, none, none⟩
      none none "IF_COMPARE".toList rfl
    have heval : decode_mif emptyT (⟨3, some 1, "A^B".toList, none, none, none⟩ : RawIns)
        none none "IF_COMPARE".toList
        = [.raw (.num 3) (.ty (some 1)) none none []
            ("ERROR: ".toList ++ noneDataDictErr) none,
           .raw (.num 3) (.ty (some 1)) none none []
            ("ERROR: ".toList ++ noneDataDictErr) none] := by
      rw [decode_mif]
      simp +decide only [ite_true, ite_false, dite_true, dite_false]
      have hfrag : fragSplit ("A^B".toList) = ["A".toList, "B".toList] := by decide
      rw [hfrag]
      simp only [List.attach, List.attachWith, List.pmap, List.map_cons, List.map_nil]
      rw [decode_ins, decode_ins]
      simp +decide only []
      rfl
    rw [heval]
    exact List.mem_cons_self _ _

/-! ## C2 — exception propagation of the decode entry points -/

/-- C2 counterexample: the claim states `decode_ins` and `parse` never raise.
For an unclassified type code decoded without a program version, the fallback
of `parse` calls the variable resolver, whose `None.data_dictionary` access
raises `AttributeError`, and both entry points propagate it to the caller
instead of returning an error leaf. -/
theorem c2_counterexample_decode_raises :
    decode_ins emptyT ⟨1, some 999, "X".toList, none, none, none⟩ none none
      = .error noneDataDictErr
    ∧ parse emptyT (tokenize "X".toList) ⟨1, some 999, "X".toList, none, none, none⟩
        none none none
      = .error noneDataDictErr := by
  constructor
  · rw [decode_ins]
    simp +decide only []
    rw [parse]
    simp +decide only [dispatchTemplate]
    rfl
  · rw [parse]
    simp +decide only [dispatchTemplate]
    rfl

/-- C2 as amended: `decode_ins` and `parse` can propagate exceptions; it is
`decode_mif` that recovers per-fragment failures — whenever re-decoding a
fragment raises, its output contains an error leaf whose value carries the
failure text (`decode_mif` itself always returns a node list). -/
theorem c2_amended_mif_error_leaf :
    ∀ (tpls : TplMap) (rec : RawIns) (aod : Option Ctx) (pv : Option PV)
      (tid : Str) (fr : Str) (m : Str),
      sContains rec.ins '#' = false →
      fr ∈ fragSplit rec.ins →
      decode_ins tpls { rec with ins := pyStrip fr } aod pv = .error m →
      (Node.raw (.num rec.n) (.ty rec.t) none none []
        ("ERROR: ".toList ++ m) none) ∈ decode_mif tpls rec aod pv tid := by
  intro tpls rec aod pv tid fr m hH hfr hdec
  rw [decode_mif]
  rw [dif_neg (by simp [hH])]
  apply List.mem_flatten.mpr
  refine ⟨[Node.raw (.num rec.n) (.ty rec.t) none none []
    ("ERROR: ".toList ++ m) none], ?_, List.mem_cons_self _ _⟩
  apply List.mem_map.mpr
  refine ⟨⟨fr, hfr⟩, List.mem_attach _ _, ?_⟩
  rw [hdec]

/-- Witness for C2 at the record `{step=1, type=999, text="A+B"}` decoded
without context: fragment `A` raises inside `decode_ins`, and `decode_mif`
embeds the error leaf carrying the failure text. -/
theorem c2_amended_mif_error_leaf_witness :
    (Node.raw (.num 1) (.ty (some 999)) none none []
      ("ERROR: ".toList ++ noneDataDictErr) none)
      ∈ decode_mif emptyT ⟨1, some 999, "A+B".toList, none, none, none⟩ none none [] := by
  apply c2_amended_mif_error_leaf emptyT ⟨1, some 999, "A+B".toList, none, none, none⟩
    none none [] "A".toList noneDataDictErr (by decide) (by decide)
  rw [decode_ins]
  simp +decide only []
  rw [parse]
  simp +decide only [dispatchTemplate]
  rfl

/-! ## C9 — linker termination and the cyclic two-step algorithm -/

/-- Condition leaf of step 1 of the synthetic cyclic algorithm. -/
def cond1 : Node := .raw (.num 1) (.ty (some 1)) none none "c1".toList "c1".toList none

/-- Condition leaf of step 2 of the synthetic cyclic algorithm. -/
def cond2 : Node := .raw (.num 2) (.ty (some 1)) none none "c2".toList "c2".toList none

/-- Step 1: a conditional whose true branch jumps to step 2. -/
def linkStep1 : Node :=
  .ifN (.num 1) (.ty (some 1)) none none cond1
    [.jump (.num 1) (.ty (some 1)) none none 2 none] [] none

/-- Step 2: a conditional whose false branch jumps back to step 1. -/
def linkStep2 : Node :=
  .ifN (.num 2) (.ty (some 1)) none none cond2
    [] [.jump (.num 2) (.ty (some 1)) none none 1 none] none

/-- The cyclic two-step table: step 1's true branch targets step 2, step 2's
false branch targets step 1. -/
def cyclicTable : StepTable := [(1, [linkStep1]), (2, [linkStep2])]

/-- C9: the control-flow linker terminates on every step table — `linkNode`
and `linkList` are total functions, accepted by well-founded recursion on
the visited-set measure `countUnvisited` — and on the synthetic cyclic
two-step algorithm it expands step 2 into step 1's true branch once and, on
revisiting step 1 within the same branch-resolution chain, stops and leaves
a terminal back-reference marker instead of re-expanding. -/
theorem c9_linker_cycle_backref :
    linkAlgorithm cyclicTable
      = [.ifN (.num 1) (.ty (some 1)) none none cond1
          [.ifN (.num 2) (.ty (some 1)) none none cond2 [] [.backRef 1] none]
          [] none] := by
  have hnilA : linkList cyclicTable [2, 1] ([] : List Node) = [] := by
    rw [linkList.eq_def]
  have hnilB : linkList cyclicTable [1] ([] : List Node) = [] := by
    rw [linkList.eq_def]
  have hB : linkNode cyclicTable [2, 1] (.jump (.num 2) (.ty (some 1)) none none 1 none)
      = [.backRef 1] := by
    rw [linkNode.eq_def]
    simp +decide only [dite_true, dite_false]
  have hC : linkList cyclicTable [2, 1]
      [.jump (.num 2) (.ty (some 1)) none none 1 none] = [.backRef 1] := by
    rw [linkList.eq_def]
    simp only [hB, hnilA, List.append_nil]
  have hD : linkNode cyclicTable [2, 1] linkStep2
      = [.ifN (.num 2) (.ty (some 1)) none none cond2 [] [.backRef 1] none] := by
    rw [linkStep2, linkNode.eq_def]
    simp only [hnilA, hC]
  have hE : linkList cyclicTable [2, 1] [linkStep2]
      = [.ifN (.num 2) (.ty (some 1)) none none cond2 [] [.backRef 1] none] := by
    rw [linkList.eq_def]
    simp only [hD, hnilA, List.append_nil]
  have hF : linkNode cyclicTable [1] (.jump (.num 1) (.ty (some 1)) none none 2 none)
      = [.ifN (.num 2) (.ty (some 1)) none none cond2 [] [.backRef 1] none] := by
    rw [linkNode.eq_def]
    simp +decide only [dite_true, dite_false]
    have hlook : lookupStep cyclicTable 2 = some [linkStep2] := by
      rfl
    rw [hlook]
    exact hE
  have hG : linkList cyclicTable [1]
      [Node.jump (.num 1) (.ty (some 1)) none none 2 none]
      = [.ifN (.num 2) (.ty (some 1)) none none cond2 [] [.backRef 1] none] := by
    rw [linkList.eq_def]
    simp only [hF]
    rw [hnilB, List.append_nil]
  have hH : linkNode cyclicTable [1] linkStep1
      = [.ifN (.num 1) (.ty (some 1)) none none cond1
          [.ifN (.num 2) (.ty (some 1)) none none cond2 [] [.backRef 1] none] [] none] := by
    rw [linkStep1, linkNode.eq_def]
    simp only [hG, hnilB]
  show linkList cyclicTable [1] [linkStep1] = _
  rw [linkList.eq_def]
  simp only [hH]
  rw [hnilB, List.append_nil]

end ER
